import Mathlib

/-!
# gokp: the azure create-cluster run and the cluster-state exporter

A shallow embedding of

* `cmd/createCluster_azure.go` : the body of `azurecreateCmd.Run`, and
* `cmd/export/export.go` : `exportClusterScopedYaml` and `addTypeInformationToObject`.

Collaborators that live outside these two files (the `utils`, `kind`, `capi`, `github`,
`templates`, `argo`, `flux` packages, the Kubernetes client, the type registry, the YAML
serializer and the operating system) are represented by an environment record that fixes,
for each of them, the result it returns.
-/

set_option autoImplicit false

namespace Gokp

/-! ## Paths and the file system -/

/-- The paths (files and directories alike) that currently exist.  Paths are compared
syntactically, as the strings the program builds by concatenation. -/
abbrev FS := List String

/-- Path `q` lies strictly below directory `p`: it starts with `p` followed by a slash. -/
def under (p q : String) : Bool :=
  (p ++ "/").data.isPrefixOf q.data

/-- Path `q` is `p` itself or lies below it. -/
def within (p q : String) : Bool :=
  q == p || under p q

/-- Model of `os.RemoveAll(path)`.  A path that does not exist is not an error (the call
returns nil and changes nothing); an existing path is removed together with everything
below it when the operating system permits (`permitted`), and otherwise the call reports
an error.  The first component is `true` when the returned error is nil. -/
def osRemoveAll (permitted : Bool) (path : String) (fs : FS) : Bool × FS :=
  if path ∈ fs then
    if permitted then (true, fs.filter (fun q => !within path q))
    else (false, fs)
  else (true, fs)

/-- Where a path of the tree rooted at `oldpath` ends up once that tree is renamed to
`newpath`; paths outside the tree stay where they are. -/
def rebase (oldpath newpath q : String) : String :=
  if q = oldpath then newpath
  else if under oldpath q then newpath ++ String.mk (q.data.drop oldpath.data.length)
  else q

/-- The directory a path lies in: the path up to its last slash.  The result is empty for a
path directly below the root or the current directory. -/
def parentDir (p : String) : String :=
  String.mk ((p.data.reverse.dropWhile (fun ch => ch != '/')).drop 1).reverse

/-- Model of `os.Rename(oldpath, newpath)` for a directory `oldpath`.  The call fails when
the source does not exist, when the destination exists already (Go reports `EEXIST` for an
existing directory, also an empty one and also when both paths are the same, and the
operating system refuses to put a directory in the place of a file), when something exists
below the destination, when the directory the destination lies in does not exist, when the
destination lies inside the source, or when the operating system refuses for another reason
(`permitted = false`, for example across file systems).  On success the whole tree moves. -/
def osRename (permitted : Bool) (oldpath newpath : String) (fs : FS) : Bool × FS :=
  if oldpath ∈ fs ∧ permitted = true ∧ newpath ∉ fs
      ∧ (parentDir newpath = "" ∨ parentDir newpath ∈ fs)
      ∧ under oldpath newpath = false
      ∧ fs.all (fun q => !under newpath q) = true then
    (true, fs.map (rebase oldpath newpath))
  else (false, fs)

/-! ## The azure create-cluster run -/

/-- The calls `azurecreateCmd.Run` makes, in the order they appear in the source. -/
inductive Call
  /-- Line 37, `os.MkdirAll(os.Getenv("HOME")+"/.gokp", 0775)`. -/
  | mkdirHome
  /-- Line 42, `utils.CreateWorkDir()`. -/
  | createWorkDir
  /-- Line 72, `utils.CheckPreReqs`. -/
  | checkPreReqs
  /-- Line 80, `kind.CreateKindCluster`. -/
  | createKindCluster
  /-- Line 100, `capi.CreateAzureK8sInstance`. -/
  | createAzureK8sInstance
  /-- Line 106, `github.CreateRepo`. -/
  | createRepo
  /-- Line 114, `templates.CreateArgoRepoSkel`. -/
  | createArgoRepoSkel
  /-- Line 120, `templates.CreateFluxRepoSkel`. -/
  | createFluxRepoSkel
  /-- Line 130, `export.ExportClusterYaml`. -/
  | exportClusterYaml
  /-- Line 137, `github.CommitAndPush`. -/
  | commitAndPush
  /-- Line 146, `argo.BootstrapArgoCD`. -/
  | bootstrapArgoCD
  /-- Line 153, `flux.BootstrapFluxCD`. -/
  | bootstrapFluxCD
  /-- Line 163, `capi.MoveMgmtCluster`. -/
  | moveMgmtCluster
  /-- Line 170, `kind.DeleteKindCluster`. -/
  | deleteKindCluster
  /-- Line 178, `os.Rename(WorkDir, gokpartifacts)`. -/
  | rename
  /-- Line 196, `os.RemoveAll(gokpartifacts + "/" + notNeededthing)`. -/
  | removeNotNeeded (notNeededthing : String)
  /-- Line 45, the deferred `os.RemoveAll(WorkDir)`. -/
  | cleanupWorkDir
  deriving DecidableEq, Repr

/-- What the run receives from outside: the environment variable, the flag values, and for
every call whether it succeeds and what it does to the file system. -/
structure Env where
  /-- Value of `os.Getenv("HOME")`. -/
  home : String
  /-- The path returned by `utils.CreateWorkDir()`. -/
  workDir : String
  /-- Flag `cluster-name`. -/
  clusterName : String
  /-- Flag `gitops-controller`. -/
  gitOpsController : String
  /-- For a collaborator call: whether it returns a nil error.  For an operating-system
  call: whether the operating system permits the operation. -/
  ok : Call → Bool
  /-- What a collaborator call does to the file system. -/
  effect : Call → FS → FS

/-- The observable state of a run: the file system and the record of calls made so far,
each with the success it reported. -/
structure St where
  fs : FS
  trace : List (Call × Bool)
  deriving DecidableEq, Repr

/-- A call to a collaborator: its effect is applied, and the call is recorded together
with the success it reports. -/
def Env.invoke (env : Env) (c : Call) (s : St) : Bool × St :=
  (env.ok c, { fs := env.effect c s.fs, trace := s.trace ++ [(c, env.ok c)] })

/-- The pattern `if err != nil { log.Fatal(err) }`.  `log.Fatal` logs and exits the process
with status 1; deferred functions are not run.  `Except.error s` is a process that exited
this way in state `s`, `Except.ok s` one that goes on in state `s`. -/
def fatalUnless (r : Bool × St) : Except St St :=
  if r.1 then .ok r.2 else .error r.2

/-- Modelled from the spec: `utils.CreateWorkDir` (its source is not part of these files)
creates the working directory of the run and returns its path. -/
def CreateWorkDir (env : Env) (s : St) : Bool × St :=
  (env.ok .createWorkDir,
    { fs := if env.ok .createWorkDir = true ∧ env.workDir ∉ s.fs then env.workDir :: s.fs
            else s.fs,
      trace := s.trace ++ [(.createWorkDir, env.ok .createWorkDir)] })

/-- Line 42, `WorkDir`. -/
def WorkDir (env : Env) : String := env.workDir

/-- Line 43, `KindCfg = WorkDir + "/" + "kind.kubeconfig"`. -/
def KindCfg (env : Env) : String := WorkDir env ++ "/" ++ "kind.kubeconfig"

/-- Line 66, `CapiCfg := WorkDir + "/" + clusterName + ".kubeconfig"`. -/
def CapiCfg (env : Env) : String := WorkDir env ++ "/" ++ env.clusterName ++ ".kubeconfig"

/-- Line 67, `gokpartifacts := os.Getenv("HOME") + "/.gokp/" + clusterName`. -/
def gokpartifacts (env : Env) : String := env.home ++ "/.gokp/" ++ env.clusterName

/-- Lines 183-193, the list `notNeeded`. -/
def notNeeded : List String :=
  [ "argocd-install-output",
    "capi-install-yamls-output",
    "cni-output",
    "fluxcd-install-output",
    "argocd-install.yaml",
    "flux-install.yaml",
    "cni.yaml",
    "install-cluster.yaml",
    "kind.kubeconfig" ]

/-- Lines 195-200, the loop over `notNeeded`: each entry is removed below `dir`, and the
first error is fatal. -/
def pruneLoop (env : Env) (dir : String) : List String → St → Except St St
  | [], s => .ok s
  | notNeededthing :: rest, s =>
    let r := osRemoveAll (env.ok (.removeNotNeeded notNeededthing))
      (dir ++ "/" ++ notNeededthing) s.fs
    let s1 : St := { fs := r.2, trace := s.trace ++ [(.removeNotNeeded notNeededthing, r.1)] }
    if r.1 then pruneLoop env dir rest s1 else .error s1

/-- Line 178, `err = os.Rename(WorkDir, gokpartifacts)`, recorded in the trace. -/
def renameStep (env : Env) (s : St) : Bool × St :=
  let r := osRename (env.ok .rename) (WorkDir env) (gokpartifacts env) s.fs
  (r.1, { fs := r.2, trace := s.trace ++ [(.rename, r.1)] })

/-- Line 45, `defer os.RemoveAll(WorkDir)`: runs when the function returns; its result is
discarded. -/
def deferredCleanup (env : Env) (s : St) : St :=
  let r := osRemoveAll (env.ok .cleanupWorkDir) (WorkDir env) s.fs
  { fs := r.2, trace := s.trace ++ [(.cleanupWorkDir, r.1)] }

/-- The body of `azurecreateCmd.Run` (lines 35-205), started on file system `fs0`.
`Except.ok s` is a normal return (the deferred cleanup has run), `Except.error s` an exit
through `log.Fatal`. -/
def azurecreateCmd.Run (env : Env) (fs0 : FS) : Except St St := do
  let s : St := { fs := fs0, trace := [] }
  -- 37-40: create home dir
  let s ← fatalUnless (env.invoke .mkdirHome s)
  -- 42: WorkDir, _ = utils.CreateWorkDir()
  let s := (CreateWorkDir env s).2
  -- 72-75: Run PreReq Checks
  let s ← fatalUnless (env.invoke .checkPreReqs s)
  -- 80-83: Create KIND instance
  let s ← fatalUnless (env.invoke .createKindCluster s)
  -- 100-103: Create CAPI instance
  let s ← fatalUnless (env.invoke .createAzureK8sInstance s)
  -- 106-109: Create the GitOps repo
  let s ← fatalUnless (env.invoke .createRepo s)
  -- 112-126: repo dir structure for the chosen controller
  let s ←
    (if env.gitOpsController = "argocd" then fatalUnless (env.invoke .createArgoRepoSkel s)
     else if env.gitOpsController = "fluxcd" then fatalUnless (env.invoke .createFluxRepoSkel s)
     else .error s)
  -- 130-133: export cluster YAML
  let s ← fatalUnless (env.invoke .exportClusterYaml s)
  -- 137-140: git push
  let s ← fatalUnless (env.invoke .commitAndPush s)
  -- 143-159: deploy the chosen controller
  let s ←
    (if env.gitOpsController = "argocd" then fatalUnless (env.invoke .bootstrapArgoCD s)
     else if env.gitOpsController = "fluxcd" then fatalUnless (env.invoke .bootstrapFluxCD s)
     else .error s)
  -- 163-166: move from kind to capi instance
  let s ← fatalUnless (env.invoke .moveMgmtCluster s)
  -- 170-173: delete local kind cluster
  let s ← fatalUnless (env.invoke .deleteKindCluster s)
  -- 178-181: move components to the final directory
  let s ← fatalUnless (renameStep env s)
  -- 183-200: remove what is not needed
  let s ← pruneLoop env (gokpartifacts env) notNeeded s
  -- normal return: the deferred call of line 45 runs
  pure (deferredCleanup env s)

/-- The state in which the process ends, whichever way it ends. -/
def finalState (r : Except St St) : St :=
  match r with
  | .ok s => s
  | .error s => s

/-! ## The cluster-state exporter: the Kubernetes object model -/

/-- Model of `metav1.Time`, counted from the zero instant of the Go `time.Time` type. -/
structure Time where
  sec : Int
  nsec : Int
  deriving DecidableEq, Repr

/-- The zero `metav1.Time`, the value left by `Time.Reset()`. -/
def Time.zero : Time := { sec := 0, nsec := 0 }

/-- Model of `metav1.OwnerReference`. -/
structure OwnerReference where
  apiVersion : String
  kind : String
  name : String
  uid : String
  controller : Option Bool
  blockOwnerDeletion : Option Bool
  deriving DecidableEq, Repr

/-- Model of `metav1.ManagedFieldsEntry`. -/
structure ManagedFieldsEntry where
  manager : String
  operation : String
  apiVersion : String
  time : Option Time
  fieldsType : String
  fieldsV1 : String
  subresource : String
  deriving DecidableEq, Repr

/-- Model of `metav1.TypeMeta`. -/
structure TypeMeta where
  kind : String
  apiVersion : String
  deriving DecidableEq, Repr

/-- Model of `metav1.ObjectMeta`. -/
structure ObjectMeta where
  name : String
  generateName : String
  namespace_ : String
  selfLink : String
  uid : String
  resourceVersion : String
  generation : Int
  creationTimestamp : Time
  deletionTimestamp : Option Time
  deletionGracePeriodSeconds : Option Int
  labels : List (String × String)
  annotations : List (String × String)
  ownerReferences : List OwnerReference
  finalizers : List String
  managedFields : List ManagedFieldsEntry
  deriving DecidableEq, Repr

/-- Model of `corev1.Taint`. -/
structure Taint where
  key : String
  value : String
  effect : String
  deriving DecidableEq, Repr

/-- Model of `corev1.NodeSpec`. -/
structure NodeSpec where
  podCIDR : String
  podCIDRs : List String
  providerID : String
  unschedulable : Bool
  taints : List Taint
  deriving DecidableEq, Repr

/-- Model of `corev1.NodeCondition`. -/
structure NodeCondition where
  type : String
  status : String
  lastHeartbeatTime : Time
  lastTransitionTime : Time
  reason : String
  message : String
  deriving DecidableEq, Repr

/-- Model of `corev1.NodeDaemonEndpoints`: the port of the kubelet endpoint. -/
structure NodeDaemonEndpoints where
  kubeletEndpointPort : Int
  deriving DecidableEq, Repr

/-- Model of `corev1.NodeSystemInfo`. -/
structure NodeSystemInfo where
  machineID : String
  systemUUID : String
  bootID : String
  kernelVersion : String
  osImage : String
  containerRuntimeVersion : String
  kubeletVersion : String
  kubeProxyVersion : String
  operatingSystem : String
  architecture : String
  deriving DecidableEq, Repr

/-- Model of `corev1.ContainerImage`. -/
structure ContainerImage where
  names : List String
  sizeBytes : Int
  deriving DecidableEq, Repr

/-- Model of `corev1.NodeStatus`. -/
structure NodeStatus where
  capacity : List (String × String)
  allocatable : List (String × String)
  phase : String
  conditions : List NodeCondition
  addresses : List (String × String)
  daemonEndpoints : NodeDaemonEndpoints
  nodeInfo : NodeSystemInfo
  images : List ContainerImage
  volumesInUse : List String
  volumesAttached : List (String × String)
  config : Option String
  deriving DecidableEq, Repr

/-- Model of `corev1.Node`. -/
structure Node where
  typeMeta : TypeMeta
  metadata : ObjectMeta
  spec : NodeSpec
  status : NodeStatus
  deriving DecidableEq, Repr

/-- The value of `NodeDaemonEndpoints{}`, left by `Reset()`. -/
def NodeDaemonEndpoints.zero : NodeDaemonEndpoints := { kubeletEndpointPort := 0 }

/-- The value of `NodeSystemInfo{}`, left by `Reset()`. -/
def NodeSystemInfo.zero : NodeSystemInfo :=
  { machineID := "", systemUUID := "", bootID := "", kernelVersion := "", osImage := "",
    containerRuntimeVersion := "", kubeletVersion := "", kubeProxyVersion := "",
    operatingSystem := "", architecture := "" }

/-- The value of `NodeStatus{}`, left by `Reset()`. -/
def NodeStatus.zero : NodeStatus :=
  { capacity := [], allocatable := [], phase := "", conditions := [], addresses := [],
    daemonEndpoints := NodeDaemonEndpoints.zero, nodeInfo := NodeSystemInfo.zero,
    images := [], volumesInUse := [], volumesAttached := [], config := none }

/-- Method `SetResourceVersion` of the object metadata. -/
def Node.SetResourceVersion (nd : Node) (v : String) : Node :=
  { nd with metadata := { nd.metadata with resourceVersion := v } }

/-- Method `SetUID`. -/
def Node.SetUID (nd : Node) (v : String) : Node :=
  { nd with metadata := { nd.metadata with uid := v } }

/-- Method `SetAnnotations`. -/
def Node.SetAnnotations (nd : Node) (v : List (String × String)) : Node :=
  { nd with metadata := { nd.metadata with annotations := v } }

/-- The call `nd.CreationTimestamp.Reset()`. -/
def Node.CreationTimestampReset (nd : Node) : Node :=
  { nd with metadata := { nd.metadata with creationTimestamp := Time.zero } }

/-- Method `SetSelfLink`. -/
def Node.SetSelfLink (nd : Node) (v : String) : Node :=
  { nd with metadata := { nd.metadata with selfLink := v } }

/-- Method `SetManagedFields`. -/
def Node.SetManagedFields (nd : Node) (v : List ManagedFieldsEntry) : Node :=
  { nd with metadata := { nd.metadata with managedFields := v } }

/-- Method `SetFinalizers`. -/
def Node.SetFinalizers (nd : Node) (v : List String) : Node :=
  { nd with metadata := { nd.metadata with finalizers := v } }

/-- Method `SetOwnerReferences`. -/
def Node.SetOwnerReferences (nd : Node) (v : List OwnerReference) : Node :=
  { nd with metadata := { nd.metadata with ownerReferences := v } }

/-- Method `SetGeneration`. -/
def Node.SetGeneration (nd : Node) (v : Int) : Node :=
  { nd with metadata := { nd.metadata with generation := v } }

/-- The call `nd.Status.Reset()`. -/
def Node.StatusReset (nd : Node) : Node :=
  { nd with status := NodeStatus.zero }

/-- The call `nd.Status.DaemonEndpoints.Reset()`. -/
def Node.StatusDaemonEndpointsReset (nd : Node) : Node :=
  { nd with status := { nd.status with daemonEndpoints := NodeDaemonEndpoints.zero } }

/-- The call `nd.Status.NodeInfo.Reset()`. -/
def Node.StatusNodeInfoReset (nd : Node) : Node :=
  { nd with status := { nd.status with nodeInfo := NodeSystemInfo.zero } }

/-- Model of `schema.GroupVersionKind`. -/
structure GroupVersionKind where
  group : String
  version : String
  kind : String
  deriving DecidableEq, Repr

/-- The constant `runtime.APIVersionInternal` of the apimachinery library. -/
def APIVersionInternal : String := "__internal"

/-- Method `GroupVersionKind.ToAPIVersionAndKind`: the empty triple gives two empty
strings; otherwise the API version is `group/version`, or just `version` when the group
is empty. -/
def GroupVersionKind.ToAPIVersionAndKind (gvk : GroupVersionKind) : String × String :=
  if gvk.group.length = 0 ∧ gvk.version.length = 0 ∧ gvk.kind.length = 0 then ("", "")
  else if gvk.group.length > 0 then (gvk.group ++ "/" ++ gvk.version, gvk.kind)
  else (gvk.version, gvk.kind)

/-- The call `obj.GetObjectKind().SetGroupVersionKind(gvk)` on an object whose object kind
is its embedded `TypeMeta`. -/
def Node.SetGroupVersionKind (nd : Node) (gvk : GroupVersionKind) : Node :=
  { nd with typeMeta :=
      { apiVersion := gvk.ToAPIVersionAndKind.1, kind := gvk.ToAPIVersionAndKind.2 } }

/-! ## The cluster-state exporter: the functions of `export.go` -/

/-- Lines 112-121 of `addTypeInformationToObject`: the loop over the registry entries.
Entries with an empty kind, an empty version or the internal version are passed over; the
first other entry is assigned and ends the loop. -/
def assignFirstUsable : List GroupVersionKind → Node → Node
  | [], obj => obj
  | gvk :: rest, obj =>
    if gvk.kind.length = 0 then assignFirstUsable rest obj
    else if gvk.version.length = 0 ∨ gvk.version = APIVersionInternal then
      assignFirstUsable rest obj
    else obj.SetGroupVersionKind gvk

/-- Function `addTypeInformationToObject` (lines 106-124).  `objectKinds` is the result of
`scheme.Scheme.ObjectKinds(obj)`.  The result is the object as the function leaves it and
the error it returns (`none` for nil). -/
def addTypeInformationToObject (objectKinds : Except String (List GroupVersionKind))
    (obj : Node) : Node × Option String :=
  match objectKinds with
  | .error err => (obj, some ("missing apiVersion or kind and cannot assign it; " ++ err))
  | .ok gvks => (assignFirstUsable gvks obj, none)

/-- Replacement of every non-overlapping occurrence of a non-empty `old`, scanning from the
left; `fuel` bounds the number of scanning steps. -/
def replaceAllFrom (old new : List Char) : Nat → List Char → List Char
  | 0, s => s
  | _ + 1, [] => []
  | fuel + 1, c :: cs =>
    if old.isPrefixOf (c :: cs) then
      new ++ replaceAllFrom old new fuel ((c :: cs).drop old.length)
    else c :: replaceAllFrom old new fuel cs

/-- Model of `strings.ReplaceAll(s, old, new)`.  With an empty `old` the replacement is
inserted at the start and after every character. -/
def ReplaceAll (s old new : String) : String :=
  if old.data = [] then String.mk (new.data ++ s.data.flatMap (fun c => c :: new.data))
  else String.mk (replaceAllFrom old.data new.data s.data.length s.data)

/-- The API server as the typed client sees it. -/
structure Cluster where
  /-- The items of the list returned by `c.CoreV1().Nodes().List` (line 53; the error of
  that call is discarded by the source). -/
  items : List Node
  /-- The result of `c.CoreV1().Nodes().Get` for a name (line 61). -/
  get : String → Except String Node

/-- What the exporter receives from outside. -/
structure ExportEnv where
  /-- Result of `kubernetes.NewForConfig(client)` (line 47). -/
  newForConfig : Except String Cluster
  /-- Whether `os.Create(path)` succeeds (line 66). -/
  create : String → Bool
  /-- Result of `scheme.Scheme.ObjectKinds(obj)` (line 107). -/
  objectKinds : Node → Except String (List GroupVersionKind)
  /-- Result of the YAML serializer for an object (line 91): its bytes, or an error. -/
  encode : Node → Except String String

/-- A file store: path and content of every file, in order of creation. -/
abbrev Files := List (String × String)

/-- Writing a file: an existing file gets the new content, a new file is added. -/
def writeFile (path content : String) : Files → Files
  | [] => [(path, content)]
  | (p, c) :: rest =>
    if p = path then (p, content) :: rest else (p, c) :: writeFile path content rest

/-- The observable state of an export: the files, and the objects handed to the
serializer, each with the path of the file it is written to. -/
structure ExportSt where
  files : Files
  encoded : List (String × Node)
  deriving DecidableEq, Repr

/-- How a call of `exportClusterScopedYaml` ends. -/
inductive ExportResult
  /-- The function returned the pair `(b, err)`; `none` is a nil error. -/
  | returned (b : Bool) (err : Option String)
  /-- The function panicked. -/
  | panicked (msg : String)
  deriving DecidableEq, Repr

/-- Lines 72-84 of `exportClusterScopedYaml`, the block `// Make the YAML generic to
store`. -/
def makeGeneric (nd : Node) : Node :=
  let nd := nd.SetResourceVersion ""
  let nd := nd.SetUID ""
  let nd := nd.SetAnnotations []
  let nd := nd.CreationTimestampReset
  let nd := nd.SetSelfLink ""
  let nd := nd.SetManagedFields []
  let nd := nd.SetFinalizers []
  let nd := nd.SetOwnerReferences []
  let nd := nd.SetGeneration 0
  let nd := nd.StatusReset
  -- needed for nodes maybe?
  let nd := nd.StatusDaemonEndpointsReset
  let nd := nd.StatusNodeInfoReset
  nd

/-- Lines 54-98 of `exportClusterScopedYaml`: the loop over `nodes.Items`.  The result is
`none` when the loop runs to its end and the panic message otherwise. -/
def exportNodes (env : ExportEnv) (c : Cluster) (repodir : String) :
    List Node → ExportSt → Option String × ExportSt
  | [], s => (none, s)
  | node :: rest, s =>
    -- 56-58: if we get nothing then go to the next one
    if node.metadata.name.length = 0 then exportNodes env c repodir rest s
    else
      -- 61-64: get the config for a specific node
      match c.get node.metadata.name with
      | .error err => (some err, s)
      | .ok nd =>
        -- 66-69: create the file
        let path := repodir ++ "/" ++ "node-" ++ ReplaceAll nd.metadata.name ":" "-" ++ ".yaml"
        if env.create path = false then (some ("open " ++ path), s)
        else
          let s1 : ExportSt := { s with files := writeFile path "" s.files }
          -- 72-84: make the YAML generic to store
          let nd := makeGeneric nd
          -- 88: the returned error is not looked at
          let nd := (addTypeInformationToObject (env.objectKinds nd) nd).1
          -- 89-94: encode into the file
          let s2 : ExportSt := { s1 with encoded := s1.encoded ++ [(path, nd)] }
          match env.encode nd with
          | .error err => (some err, s2)
          | .ok bytes =>
            -- 96: close the file
            exportNodes env c repodir rest { s2 with files := writeFile path bytes s2.files }

/-- Function `exportClusterScopedYaml` (lines 45-103), started on the file store `s`. -/
def exportClusterScopedYaml (env : ExportEnv) (repodir : String) (s : ExportSt) :
    ExportResult × ExportSt :=
  match env.newForConfig with
  | .error err => (.returned false (some err), s)
  | .ok c =>
    match exportNodes env c repodir c.items s with
    | (some msg, s1) => (.panicked msg, s1)
    | (none, s1) => (.returned true none, s1)

/-! ## Vocabulary of the statements -/

/-- The calls of the stage list (everything but the set-up of the home and working
directories and the deferred clean-up). -/
def Call.isStage : Call → Bool
  | .mkdirHome => false
  | .createWorkDir => false
  | .cleanupWorkDir => false
  | _ => true

/-- The fixed order of the stage calls: prerequisite check, ephemeral control plane, target
cluster, repository, repository skeleton, export, commit and push, controller bootstrap,
pivot, deletion of the ephemeral control plane, rename, and the removals of the prune loop.
`argo` selects the Argo CD variant of the two controller-specific calls. -/
def fixedOrder (argo : Bool) : List Call :=
  [ .checkPreReqs, .createKindCluster, .createAzureK8sInstance, .createRepo,
    if argo then .createArgoRepoSkel else .createFluxRepoSkel,
    .exportClusterYaml, .commitAndPush,
    if argo then .bootstrapArgoCD else .bootstrapFluxCD,
    .moveMgmtCluster, .deleteKindCluster, .rename ] ++ notNeeded.map Call.removeNotNeeded

/-- The stage calls recorded in a state, in the order they were made. -/
def stageTrace (s : St) : List (Call × Bool) :=
  s.trace.filter (fun e => e.1.isStage)

/-- A record of calls that all reported success. -/
def okTrace (cs : List Call) : List (Call × Bool) :=
  cs.map (fun c => (c, true))

/-- The result `r` continues the stage record `t0` with the calls `cs`, in order: a normal
end has made all of them successfully; a fatal end has made the first `k` successfully and
then either stopped or made the next one, which failed. -/
def Follows (cs : List Call) (t0 : List (Call × Bool)) : Except St St → Prop
  | .ok s => stageTrace s = t0 ++ okTrace cs
  | .error s => ∃ k,
      (k ≤ cs.length ∧ stageTrace s = t0 ++ okTrace (cs.take k)) ∨
      (∃ c, cs[k]? = some c ∧ stageTrace s = t0 ++ okTrace (cs.take k) ++ [(c, false)])

/-- Spec wording of the name sanitisation: every colon becomes a hyphen, every other
character stays as it is. -/
def colonsToHyphens (name : String) : String :=
  String.mk (name.data.map (fun ch => if ch = ':' then '-' else ch))

/-- Spec wording of the file name of a node: `node-<sanitized-name>.yaml`. -/
def nodeFileName (name : String) : String :=
  "node-" ++ colonsToHyphens name ++ ".yaml"

/-- The object the loop of `exportClusterScopedYaml` hands to the serializer for a fetched
node: the node made generic and passed through the type-information step (lines 72-88). -/
def serialised (env : ExportEnv) (nd : Node) : Node :=
  (addTypeInformationToObject (env.objectKinds (makeGeneric nd)) (makeGeneric nd)).1

/-- The nodes of an enumeration that carry a name. -/
def namedNodes (items : List Node) : List Node :=
  items.filter (fun n => decide (n.metadata.name.length ≠ 0))

/-- A file store seen from directory `dir`: every file name prefixed by the directory. -/
def placedIn (dir : String) (rel : Files) : Files :=
  rel.map (fun f => (dir ++ "/" ++ f.1, f.2))

/-- A node as the API server returns it, with identity, bookkeeping and status fields
filled in. -/
def sampleNode (name : String) : Node :=
  { typeMeta := { kind := "", apiVersion := "" },
    metadata :=
      { name := name, generateName := "", namespace_ := "",
        selfLink := "/api/v1/nodes/" ++ name,
        uid := "6f1c", resourceVersion := "4711", generation := 3,
        creationTimestamp := { sec := 63800000000, nsec := 5 },
        deletionTimestamp := none, deletionGracePeriodSeconds := none,
        labels := [("kubernetes.io/os", "linux")],
        annotations := [("node.alpha.kubernetes.io/ttl", "0")],
        ownerReferences := [{ apiVersion := "cluster.x-k8s.io/v1beta1", kind := "Machine",
                               name := "m0", uid := "77", controller := some true,
                               blockOwnerDeletion := none }],
        finalizers := ["wait"],
        managedFields := [{ manager := "kubelet", operation := "Update", apiVersion := "v1",
                             time := none, fieldsType := "FieldsV1", fieldsV1 := "f:status",
                             subresource := "status" }] },
    spec := { podCIDR := "10.0.0.0/24", podCIDRs := ["10.0.0.0/24"],
              providerID := "azure:///x", unschedulable := false, taints := [] },
    status :=
      { capacity := [("cpu", "2")], allocatable := [("cpu", "2")], phase := "Running",
        conditions := [], addresses := [("InternalIP", "10.0.0.4")],
        daemonEndpoints := { kubeletEndpointPort := 10250 },
        nodeInfo := { NodeSystemInfo.zero with kubeletVersion := "v1.22.0" },
        images := [], volumesInUse := [], volumesAttached := [], config := none } }

/-- A cluster whose enumeration returns one node per given name, and whose fetch returns
the node of that name. -/
def sampleCluster (names : List String) : Cluster :=
  { items := names.map sampleNode,
    get := fun n => if n ∈ names then .ok (sampleNode n) else .error "not found" }

/-- An exporter environment over `sampleCluster`: files can be created, the registry
answers `kinds` for every object, and the serializer writes the API version, the kind and
the name of the object. -/
def sampleEnv (names : List String) (kinds : Except String (List GroupVersionKind)) :
    ExportEnv :=
  { newForConfig := .ok (sampleCluster names),
    create := fun _ => true,
    objectKinds := fun _ => kinds,
    encode := fun nd =>
      .ok (nd.typeMeta.apiVersion ++ "/" ++ nd.typeMeta.kind ++ " " ++ nd.metadata.name) }

/-- The registry answer for a node in the kubectl scheme: version `v1`, kind `Node`, core
group. -/
def nodeKinds : Except String (List GroupVersionKind) :=
  .ok [{ group := "", version := "v1", kind := "Node" }]

/-- A run in which every call succeeds.  The first call creates the directory `.gokp` in
the home directory, the creation of the ephemeral control plane writes
its credential file, the creation of the target cluster writes the target credential file,
and the Flux CD skeleton leaves its installer output in the working directory. -/
def envAllSucceed (clusterName : String) : Env :=
  { home := "/home/u", workDir := "/tmp/gokp-work", clusterName := clusterName,
    gitOpsController := "fluxcd",
    ok := fun _ => true,
    effect := fun c fs =>
      match c with
      | .mkdirHome => List.insert "/home/u/.gokp" fs
      | .createKindCluster => List.insert "/tmp/gokp-work/kind.kubeconfig" fs
      | .createAzureK8sInstance =>
        List.insert ("/tmp/gokp-work/" ++ clusterName ++ ".kubeconfig") fs
      | .createFluxRepoSkel =>
        List.insert "/tmp/gokp-work/fluxcd-install-output/flux-install.yaml"
          (List.insert "/tmp/gokp-work/fluxcd-install-output" fs)
      | _ => fs }

/-- The cluster of `sampleCluster ["node:1", "b"]` with its nodes enumerated in the other
order; a fetch returns what it returns there. -/
def sampleClusterReversed : Cluster :=
  { items := [sampleNode "b", sampleNode "node:1"],
    get := (sampleCluster ["node:1", "b"]).get }

/-- The exporter environment of `sampleEnv ["node:1", "b"] nodeKinds` over the cluster
enumerated in the other order. -/
def sampleEnvReversed : ExportEnv :=
  { newForConfig := .ok sampleClusterReversed,
    create := fun _ => true,
    objectKinds := (sampleEnv ["node:1", "b"] nodeKinds).objectKinds,
    encode := (sampleEnv ["node:1", "b"] nodeKinds).encode }

/-! ## Concrete environments -/

/-- A run in which `utils.CheckPreReqs` returns an error and every other call succeeds;
the collaborators leave the file system alone. -/
def envPreReqFails : Env :=
  { home := "/home/u", workDir := "/tmp/gokp-work", clusterName := "demo",
    gitOpsController := "argocd",
    ok := fun c => decide (c ≠ Call.checkPreReqs),
    effect := fun _ fs => fs }


/-- A run with a gitops-controller selector that names neither controller; every call
succeeds. -/
def envUnknownController : Env :=
  { home := "/home/u", workDir := "/tmp/gokp-work", clusterName := "demo",
    gitOpsController := "helm",
    ok := fun _ => true,
    effect := fun _ fs => fs }

/-- The entry the export of `sampleCluster ["node:1"]` hands to the serializer. -/
def sampleEncoded : String × Node :=
  ("out/node-node-1.yaml",
    (addTypeInformationToObject nodeKinds (makeGeneric (sampleNode "node:1"))).1)

/-- The final directory of `envAllSucceed "demo"` right after the rename: the target
credential file, the ephemeral credential file and the installer output. -/
def sampleRelocated : St :=
  { fs := ["/home/u/.gokp/demo", "/home/u/.gokp/demo/demo.kubeconfig",
           "/home/u/.gokp/demo/kind.kubeconfig", "/home/u/.gokp/demo/fluxcd-install-output",
           "/home/u/.gokp/demo/fluxcd-install-output/flux-install.yaml"],
    trace := [] }

/-! # Theorems -/

/-! ## The order of the stage calls -/

theorem stageTrace_append_stage (s : St) (fs : FS) (c : Call) (b : Bool)
    (hc : c.isStage = true) :
    stageTrace { fs := fs, trace := s.trace ++ [(c, b)] } = stageTrace s ++ [(c, b)] := by
  simp [stageTrace, List.filter_append, hc]

theorem stageTrace_append_other (s : St) (fs : FS) (c : Call) (b : Bool)
    (hc : c.isStage = false) :
    stageTrace { fs := fs, trace := s.trace ++ [(c, b)] } = stageTrace s := by
  simp [stageTrace, List.filter_append, hc]

theorem follows_invoke (env : Env) (c : Call) (s : St) (hc : c.isStage = true) :
    Follows [c] (stageTrace s) (fatalUnless (env.invoke c s)) := by
  unfold fatalUnless Env.invoke
  cases h : env.ok c
  · simp only [Bool.false_eq_true, if_false, Follows]
    exact ⟨0, Or.inr ⟨c, by simp, by simp [stageTrace_append_stage _ _ _ _ hc, okTrace]⟩⟩
  · simp only [if_true, Follows]
    simp [stageTrace_append_stage _ _ _ _ hc, okTrace]

theorem follows_rename (env : Env) (s : St) :
    Follows [Call.rename] (stageTrace s) (fatalUnless (renameStep env s)) := by
  unfold fatalUnless renameStep
  cases h : (osRename (env.ok .rename) (WorkDir env) (gokpartifacts env) s.fs).1
  · simp only [h, Bool.false_eq_true, if_false, Follows]
    exact ⟨0, Or.inr ⟨.rename, by simp, by
      simp [stageTrace_append_stage _ _ _ _ (show Call.rename.isStage = true from rfl), okTrace]⟩⟩
  · simp only [h, if_true, Follows]
    simp [stageTrace_append_stage _ _ _ _ (show Call.rename.isStage = true from rfl), okTrace]

theorem follows_abort (c : Call) (cs : List Call) (s : St) :
    Follows (c :: cs) (stageTrace s) (.error s) :=
  ⟨0, Or.inl ⟨by simp, by simp [okTrace]⟩⟩

theorem follows_bind (cs1 cs2 : List Call) (t0 : List (Call × Bool)) (r : Except St St)
    (f : St → Except St St) (h1 : Follows cs1 t0 r)
    (h2 : ∀ s, stageTrace s = t0 ++ okTrace cs1 → Follows cs2 (stageTrace s) (f s)) :
    Follows (cs1 ++ cs2) t0 (r >>= f) := by
  cases r with
  | error s =>
    obtain ⟨k, hk⟩ := h1
    refine ⟨k, ?_⟩
    rcases hk with ⟨hk, ht⟩ | ⟨c, hc, ht⟩
    · left
      refine ⟨by simp; omega, ?_⟩
      rw [ht, List.take_append_of_le_length hk]
    · right
      have hlt : k < cs1.length := by
        by_contra hge
        rw [List.getElem?_eq_none (by omega)] at hc
        cases hc
      refine ⟨c, ?_, ?_⟩
      · rw [List.getElem?_append_left hlt]; exact hc
      · rw [ht, List.take_append_of_le_length (le_of_lt hlt)]
  | ok s =>
    have hs : stageTrace s = t0 ++ okTrace cs1 := h1
    have h := h2 s hs
    show Follows (cs1 ++ cs2) t0 (f s)
    cases hf : f s with
    | ok s2 =>
      rw [hf] at h
      show stageTrace s2 = t0 ++ okTrace (cs1 ++ cs2)
      have h3 : stageTrace s2 = stageTrace s ++ okTrace cs2 := h
      rw [h3, hs]; simp [okTrace]
    | error s2 =>
      rw [hf] at h
      obtain ⟨k, hk⟩ := h
      refine ⟨cs1.length + k, ?_⟩
      rcases hk with ⟨hk, ht⟩ | ⟨c, hc, ht⟩
      · left
        refine ⟨by simp; omega, ?_⟩
        rw [ht, hs, List.take_append]; simp [okTrace]
      · right
        refine ⟨c, ?_, ?_⟩
        · rw [List.getElem?_append_right (by omega)]; simpa using hc
        · rw [ht, hs, List.take_append]; simp [okTrace]

theorem follows_pruneLoop (env : Env) (dir : String) (ds : List String) (s : St) :
    Follows (ds.map Call.removeNotNeeded) (stageTrace s) (pruneLoop env dir ds s) := by
  induction ds generalizing s with
  | nil => simp [pruneLoop, Follows, okTrace]
  | cons d rest ih =>
    simp only [pruneLoop, List.map_cons]
    cases h : (osRemoveAll (env.ok (.removeNotNeeded d)) (dir ++ "/" ++ d) s.fs).1
    · simp only [Bool.false_eq_true, if_false, Follows]
      exact ⟨0, Or.inr ⟨.removeNotNeeded d, by simp, by
        simp [stageTrace_append_stage _ _ _ _ (show (Call.removeNotNeeded d).isStage = true from rfl),
          okTrace]⟩⟩
    · simp only [if_true]
      have := ih { fs := (osRemoveAll (env.ok (.removeNotNeeded d)) (dir ++ "/" ++ d) s.fs).2,
                   trace := s.trace ++ [(.removeNotNeeded d, true)] }
      rw [stageTrace_append_stage _ _ _ _ (show (Call.removeNotNeeded d).isStage = true from rfl)]
        at this
      revert this
      generalize pruneLoop env dir rest _ = r
      intro this
      cases r with
      | ok s2 =>
        show stageTrace s2 = _
        have h3 : stageTrace s2 = _ := this
        rw [h3]; simp [okTrace]
      | error s2 =>
        obtain ⟨k, hk⟩ := this
        refine ⟨k + 1, ?_⟩
        rcases hk with ⟨hk, ht⟩ | ⟨c, hc, ht⟩
        · left; exact ⟨by simpa using hk, by rw [ht]; simp [okTrace]⟩
        · right; exact ⟨c, by simpa using hc, by rw [ht]; simp [okTrace]⟩

theorem follows_invoke_other (env : Env) (c : Call) (s : St) (hc : c.isStage = false) :
    Follows [] (stageTrace s) (fatalUnless (env.invoke c s)) := by
  unfold fatalUnless Env.invoke
  cases h : env.ok c
  · simp only [Bool.false_eq_true, if_false, Follows]
    exact ⟨0, Or.inl ⟨by simp, by simp [stageTrace_append_other _ _ _ _ hc, okTrace]⟩⟩
  · simp only [if_true, Follows]
    simp [stageTrace_append_other _ _ _ _ hc, okTrace]

theorem follows_then (cs : List Call) (t0 : List (Call × Bool)) (r : Except St St)
    (g : St → St) (h1 : Follows cs t0 r) (hg : ∀ s, stageTrace (g s) = stageTrace s) :
    Follows cs t0 (r >>= fun s => pure (g s)) := by
  cases r with
  | error s => exact h1
  | ok s =>
    show stageTrace (g s) = _
    rw [hg]; exact h1

theorem follows_skel (env : Env) (s : St) (rest : List Call) (f : St → Except St St)
    (a b : Call) (ha : a.isStage = true) (hb : b.isStage = true)
    (h2 : ∀ s, Follows rest (stageTrace s) (f s)) :
    Follows ((if decide (env.gitOpsController = "argocd") = true then a else b) :: rest)
      (stageTrace s)
      ((if env.gitOpsController = "argocd" then fatalUnless (env.invoke a s)
        else if env.gitOpsController = "fluxcd" then fatalUnless (env.invoke b s)
        else .error s) >>= f) := by
  by_cases h : env.gitOpsController = "argocd"
  · simp only [h, decide_True, if_true]
    exact follows_bind [a] rest _ _ _ (follows_invoke env a s ha) (fun s _ => h2 s)
  · simp only [h, decide_False, if_false, Bool.false_eq_true]
    by_cases h' : env.gitOpsController = "fluxcd"
    · simp only [h', if_true]
      exact follows_bind [b] rest _ _ _ (follows_invoke env b s hb) (fun s _ => h2 s)
    · simp only [h', if_false]
      exact follows_abort b rest s

theorem stageTrace_CreateWorkDir (env : Env) (s : St) :
    stageTrace (CreateWorkDir env s).2 = stageTrace s := by
  simp [CreateWorkDir, stageTrace, List.filter_append, Call.isStage]

theorem stageTrace_deferredCleanup (env : Env) (s : St) :
    stageTrace (deferredCleanup env s) = stageTrace s := by
  simp [deferredCleanup, stageTrace, List.filter_append, Call.isStage]

theorem run_follows (env : Env) (fs0 : FS) :
    Follows (fixedOrder (decide (env.gitOpsController = "argocd"))) []
      (azurecreateCmd.Run env fs0) := by
  unfold azurecreateCmd.Run fixedOrder
  refine follows_bind [] _ (stageTrace ⟨fs0, []⟩) _ _
    (follows_invoke_other env .mkdirHome _ rfl) (fun s _ => ?_)
  rw [← stageTrace_CreateWorkDir env s]
  refine follows_bind [.checkPreReqs] _ _ _ _ (follows_invoke env _ _ rfl) (fun s _ => ?_)
  refine follows_bind [.createKindCluster] _ _ _ _ (follows_invoke env _ _ rfl) (fun s _ => ?_)
  refine follows_bind [.createAzureK8sInstance] _ _ _ _ (follows_invoke env _ _ rfl) (fun s _ => ?_)
  refine follows_bind [.createRepo] _ _ _ _ (follows_invoke env _ _ rfl) (fun s _ => ?_)
  refine follows_skel env s _ _ _ _ rfl rfl (fun s => ?_)
  refine follows_bind [.exportClusterYaml] _ _ _ _ (follows_invoke env _ _ rfl) (fun s _ => ?_)
  refine follows_bind [.commitAndPush] _ _ _ _ (follows_invoke env _ _ rfl) (fun s _ => ?_)
  refine follows_skel env s _ _ _ _ rfl rfl (fun s => ?_)
  refine follows_bind [.moveMgmtCluster] _ _ _ _ (follows_invoke env _ _ rfl) (fun s _ => ?_)
  refine follows_bind [.deleteKindCluster] _ _ _ _ (follows_invoke env _ _ rfl) (fun s _ => ?_)
  refine follows_bind [.rename] _ _ _ _ (follows_rename env _) (fun s _ => ?_)
  exact follows_then _ _ _ _ (follows_pruneLoop env _ notNeeded s)
    (stageTrace_deferredCleanup env)
theorem okTrace_snd (cs : List Call) : ∀ e ∈ okTrace cs, e.2 = true := by
  intro e he
  simp only [okTrace, List.mem_map] at he
  obtain ⟨c, _, rfl⟩ := he
  rfl

theorem okTrace_fst (cs : List Call) : (okTrace cs).map Prod.fst = cs := by
  induction cs with
  | nil => rfl
  | cons c cs ih => simpa [okTrace] using ih

theorem fixedOrder_disjoint (argo : Bool) :
    ∀ c ∈ (fixedOrder argo).take 10, c ∉ (fixedOrder argo).drop 10 := by
  revert argo; decide

theorem fixedOrder_take_ten (argo : Bool) :
    ∀ c ∈ (fixedOrder argo).take 10, c ≠ Call.rename ∧ ∀ d, c ≠ Call.removeNotNeeded d := by
  cases argo <;> simp [fixedOrder]

/-- The shape of the stage record of a run that follows `order`: a run of successes along
`order`, possibly closed by one failed call, the next of `order`. -/
theorem follows_shape (order : List Call) (r : Except St St) (h : Follows order [] r) :
    ∃ k, (k ≤ order.length ∧ stageTrace (finalState r) = okTrace (order.take k)) ∨
      (∃ c, order[k]? = some c ∧
        stageTrace (finalState r) = okTrace (order.take k) ++ [(c, false)]) := by
  cases r with
  | ok s =>
    refine ⟨order.length, Or.inl ⟨le_refl _, ?_⟩⟩
    have h1 : stageTrace s = [] ++ okTrace order := h
    simpa [finalState] using h1
  | error s =>
    obtain ⟨k, hk⟩ := h
    refine ⟨k, ?_⟩
    simpa [finalState] using hk

/-- Claim C1.  Whatever the external calls report, the stage calls recorded by a run of the
azure create-cluster command form an initial segment of the fixed order (none skipped, none
out of order); every call that is followed by another call reported success; and if one of
the ten calls before the rename reported failure, the run made neither the rename nor any
removal of a denylisted path. -/
theorem C1_stage_order (env : Env) (fs0 : FS) :
    (stageTrace (finalState (azurecreateCmd.Run env fs0))).map Prod.fst
        <+: fixedOrder (decide (env.gitOpsController = "argocd")) ∧
    (∀ pre e post, stageTrace (finalState (azurecreateCmd.Run env fs0)) = pre ++ e :: post →
        ∀ x ∈ pre, x.2 = true) ∧
    ((∃ c ∈ (fixedOrder (decide (env.gitOpsController = "argocd"))).take 10,
        (c, false) ∈ stageTrace (finalState (azurecreateCmd.Run env fs0))) →
      ∀ e ∈ (finalState (azurecreateCmd.Run env fs0)).trace,
        e.1 ≠ Call.rename ∧ ∀ d, e.1 ≠ Call.removeNotNeeded d) := by
  obtain ⟨k, hk⟩ := follows_shape _ _ (run_follows env fs0)
  have hdisj := fixedOrder_disjoint (decide (env.gitOpsController = "argocd"))
  have hten := fixedOrder_take_ten (decide (env.gitOpsController = "argocd"))
  generalize fixedOrder (decide (env.gitOpsController = "argocd")) = order at hk hdisj hten ⊢
  generalize finalState (azurecreateCmd.Run env fs0) = sf at hk ⊢
  have hstage : ∀ e ∈ sf.trace, (e.1 = Call.rename ∨ ∃ d, e.1 = Call.removeNotNeeded d) →
      e ∈ stageTrace sf := by
    intro e he hcase
    refine List.mem_filter.mpr ⟨he, ?_⟩
    rcases hcase with h | ⟨d, h⟩ <;> simp [h, Call.isStage]
  rcases hk with ⟨hk, ht⟩ | ⟨c, hc, ht⟩
  · -- only successes
    refine ⟨?_, ?_, ?_⟩
    · rw [ht, okTrace_fst]; exact List.take_prefix _ _
    · intro pre e post hsplit x hx
      exact okTrace_snd _ x (by rw [← ht, hsplit]; simp [hx])
    · rintro ⟨c, _, hc⟩
      rw [ht] at hc
      exact absurd (okTrace_snd _ _ hc) (by simp)
  · -- successes closed by one failure
    have hlt : k < order.length := by
      by_contra hge
      rw [List.getElem?_eq_none (by omega)] at hc
      cases hc
    refine ⟨?_, ?_, ?_⟩
    · rw [ht, List.map_append, okTrace_fst]
      have : order.take (k + 1) = order.take k ++ [c] := by
        rw [List.take_succ, hc]; rfl
      simp only [List.map_cons, List.map_nil]
      rw [← this]; exact List.take_prefix _ _
    · intro pre e post hsplit x hx
      rw [ht] at hsplit
      have hlen : pre.length ≤ (okTrace (order.take k)).length := by
        have := congrArg List.length hsplit
        simp at this
        simp
        omega
      have hpre : pre = (okTrace (order.take k)).take pre.length := by
        have h1 := congrArg (List.take pre.length) hsplit
        rw [List.take_append_of_le_length hlen] at h1
        simpa using h1.symm
      exact okTrace_snd _ x (List.mem_of_mem_take (hpre ▸ hx))
    · rintro ⟨c', hc'mem, hc'⟩
      rw [ht] at hc'
      have hcc : c' = c := by
        rcases List.mem_append.mp hc' with h | h
        · exact absurd (okTrace_snd _ _ h) (by simp)
        · simpa using h
      subst hcc
      have hk10 : k < 10 := by
        by_contra hge
        have : c' ∈ order.drop 10 := by
          have h2 : (order.drop 10)[k - 10]? = some c' := by
            rw [List.getElem?_drop]
            rw [show 10 + (k - 10) = k by omega]; exact hc
          exact List.mem_iff_getElem?.mpr ⟨_, h2⟩
        exact hdisj c' hc'mem this
      have hall : ∀ e ∈ stageTrace sf, e.1 ∈ order.take 10 := by
        intro e he
        rw [ht] at he
        rcases List.mem_append.mp he with h | h
        · simp only [okTrace, List.mem_map] at h
          obtain ⟨a, ha, rfl⟩ := h
          exact (List.take_subset_take_left order (by omega : k ≤ 10)) ha
        · have : e = (c', false) := by simpa using h
          rw [this]; exact hc'mem
      intro e he
      refine ⟨fun h => ?_, fun d h => ?_⟩
      · exact (hten _ (hall e (hstage e he (Or.inl h)))).1 h
      · exact (hten _ (hall e (hstage e he (Or.inr ⟨d, h⟩)))).2 d h
/-- Claim C7.  With a gitops-controller selector that is neither "argocd" nor "fluxcd" the
run always ends in a fatal exit; the only calls it can have made are the set-up of the home
and working directories, the prerequisite check, the creation of the ephemeral control
plane, of the target cluster and of the repository (so no skeleton, export, push, bootstrap,
pivot, deletion, rename or removal call of either controller variant); and when those calls
succeed the run stops right after the creation of the repository. -/
theorem C7_unknown_controller_aborts (env : Env) (fs0 : FS)
    (h1 : env.gitOpsController ≠ "argocd") (h2 : env.gitOpsController ≠ "fluxcd") :
    (∃ s, azurecreateCmd.Run env fs0 = .error s) ∧
    (∀ e ∈ (finalState (azurecreateCmd.Run env fs0)).trace,
      e.1 ∈ [Call.mkdirHome, Call.createWorkDir, Call.checkPreReqs, Call.createKindCluster,
             Call.createAzureK8sInstance, Call.createRepo]) ∧
    (env.ok .mkdirHome = true → env.ok .checkPreReqs = true →
      env.ok .createKindCluster = true → env.ok .createAzureK8sInstance = true →
      env.ok .createRepo = true →
      (finalState (azurecreateCmd.Run env fs0)).trace =
        [(.mkdirHome, true), (.createWorkDir, env.ok .createWorkDir), (.checkPreReqs, true),
         (.createKindCluster, true), (.createAzureK8sInstance, true), (.createRepo, true)]) := by
  unfold azurecreateCmd.Run
  simp only [h1, h2, if_false]
  cases h0 : env.ok .mkdirHome <;> cases hp : env.ok .checkPreReqs <;>
    cases hk : env.ok .createKindCluster <;> cases ha : env.ok .createAzureK8sInstance <;>
    cases hr : env.ok .createRepo <;>
    simp [fatalUnless, Env.invoke, CreateWorkDir, finalState, bind, Except.bind, *]

/-- Claim C8, evaluated where the prerequisite check fails: the run exits through
`log.Fatal`, the deferred removal is never called, and the working directory created at the
start still exists when the process ends. -/
theorem C8_workdir_survives_fatal :
    azurecreateCmd.Run envPreReqFails [] =
        .error { fs := ["/tmp/gokp-work"],
                 trace := [(.mkdirHome, true), (.createWorkDir, true), (.checkPreReqs, false)] } ∧
      WorkDir envPreReqFails ∈ (finalState (azurecreateCmd.Run envPreReqFails [])).fs ∧
      (∀ e ∈ (finalState (azurecreateCmd.Run envPreReqFails [])).trace,
        e.1 ≠ Call.cleanupWorkDir) := by
  refine ⟨rfl, by decide, by decide⟩
theorem within_self (p : String) : within p p = true := by
  simp [within]

theorem osRemoveAll_absent (b : Bool) (p : String) (fs : FS) (h : p ∉ fs) :
    osRemoveAll b p fs = (true, fs) := by
  simp [osRemoveAll, h]

theorem osRemoveAll_removed (b : Bool) (p : String) (fs : FS)
    (h : (osRemoveAll b p fs).1 = true) : p ∉ (osRemoveAll b p fs).2 := by
  unfold osRemoveAll at h ⊢
  by_cases hp : p ∈ fs
  · cases b
    · simp [hp] at h
    · simp [hp, within_self]
  · simp [hp]

theorem osRemoveAll_subset (b : Bool) (p : String) (fs : FS) :
    ∀ q ∈ (osRemoveAll b p fs).2, q ∈ fs := by
  intro q hq
  unfold osRemoveAll at hq
  by_cases hp : p ∈ fs
  · cases b
    · simpa [hp] using hq
    · simp only [hp, if_true] at hq
      exact (List.mem_filter.mp hq).1
  · simpa [hp] using hq

theorem osRemoveAll_keeps (b : Bool) (p q : String) (fs : FS) (hq : q ∈ fs)
    (hw : within p q = false) : q ∈ (osRemoveAll b p fs).2 := by
  unfold osRemoveAll
  by_cases hp : p ∈ fs
  · cases b
    · simpa [hp] using hq
    · simp only [hp, if_true]
      exact List.mem_filter.mpr ⟨hq, by simp [hw]⟩
  · simpa [hp] using hq

theorem pruneLoop_subset (env : Env) (dir : String) (ds : List String) (s : St) :
    ∀ q ∈ (finalState (pruneLoop env dir ds s)).fs, q ∈ s.fs := by
  induction ds generalizing s with
  | nil => intro q hq; simpa [pruneLoop, finalState] using hq
  | cons d rest ih =>
    intro q hq
    simp only [pruneLoop] at hq
    split at hq
    · exact osRemoveAll_subset _ _ _ q (ih _ q hq)
    · exact osRemoveAll_subset _ _ _ q (by simpa [finalState] using hq)

theorem pruneLoop_removed (env : Env) (dir : String) (ds : List String) (s s' : St)
    (h : pruneLoop env dir ds s = .ok s') : ∀ d ∈ ds, dir ++ "/" ++ d ∉ s'.fs := by
  induction ds generalizing s with
  | nil => intro d hd; cases hd
  | cons d0 rest ih =>
    intro d hd
    simp only [pruneLoop] at h
    split at h
    · rename_i hok
      rcases List.mem_cons.mp hd with rfl | hd
      · intro hmem
        have h1 := pruneLoop_subset env dir rest _ (dir ++ "/" ++ d) (by rw [h]; exact hmem)
        exact osRemoveAll_removed _ _ _ hok h1
      · exact ih _ h d hd
    · cases h

theorem pruneLoop_keeps (env : Env) (dir : String) (ds : List String) (s : St) (q : String)
    (hq : q ∈ s.fs) (hw : ∀ d ∈ ds, within (dir ++ "/" ++ d) q = false) :
    q ∈ (finalState (pruneLoop env dir ds s)).fs := by
  induction ds generalizing s with
  | nil => simpa [pruneLoop, finalState] using hq
  | cons d rest ih =>
    have hq1 := osRemoveAll_keeps (env.ok (.removeNotNeeded d)) _ q s.fs hq
      (hw d (List.mem_cons_self _ _))
    simp only [pruneLoop]
    split
    · exact ih _ hq1 (fun d' hd' => hw d' (List.mem_cons_of_mem _ hd'))
    · simpa [finalState] using hq1

theorem pruneLoop_completes (env : Env) (dir : String) (ds : List String) (s : St)
    (h : ∀ d ∈ ds, dir ++ "/" ++ d ∈ s.fs → env.ok (.removeNotNeeded d) = true) :
    ∃ s', pruneLoop env dir ds s = .ok s' := by
  induction ds generalizing s with
  | nil => exact ⟨s, rfl⟩
  | cons d rest ih =>
    have hok : (osRemoveAll (env.ok (.removeNotNeeded d)) (dir ++ "/" ++ d) s.fs).1 = true := by
      by_cases hp : dir ++ "/" ++ d ∈ s.fs
      · simp [osRemoveAll, hp, h d (List.mem_cons_self _ _) hp]
      · simp [osRemoveAll, hp]
    simp only [pruneLoop, hok, if_true]
    exact ih _ (fun d' hd' hmem =>
      h d' (List.mem_cons_of_mem _ hd') (osRemoveAll_subset _ _ _ _ hmem))

theorem pruneLoop_absent (env : Env) (dir : String) (ds : List String) (s : St)
    (h : ∀ d ∈ ds, dir ++ "/" ++ d ∉ s.fs) :
    ∃ s', pruneLoop env dir ds s = .ok s' ∧ s'.fs = s.fs := by
  induction ds generalizing s with
  | nil => exact ⟨s, rfl, rfl⟩
  | cons d rest ih =>
    have h0 := osRemoveAll_absent (env.ok (.removeNotNeeded d)) _ s.fs (h d (List.mem_cons_self _ _))
    simp only [pruneLoop, h0, if_true]
    obtain ⟨s', hs', hfs⟩ := ih { fs := s.fs, trace := s.trace ++ [(.removeNotNeeded d, true)] }
      (fun d' hd' => h d' (List.mem_cons_of_mem _ hd'))
    exact ⟨s', hs', hfs⟩

/-- Claim C6.  For every file system and final directory of the run: when the prune loop
runs to its end none of the nine denylisted paths exists below the final directory; every
path present before that is neither a denylisted path nor inside one is still present after
the loop, however the loop ends; the loop runs to its end whenever the removal of every
denylisted path that is present is permitted, so an absent path never causes an error; and
when all nine are absent the loop completes and leaves the file system as it was. -/
theorem C6_prune (env : Env) (s : St) :
    (∀ s', pruneLoop env (gokpartifacts env) notNeeded s = .ok s' →
      ∀ d ∈ notNeeded, gokpartifacts env ++ "/" ++ d ∉ s'.fs) ∧
    (∀ q ∈ s.fs, (∀ d ∈ notNeeded, within (gokpartifacts env ++ "/" ++ d) q = false) →
      q ∈ (finalState (pruneLoop env (gokpartifacts env) notNeeded s)).fs) ∧
    ((∀ d ∈ notNeeded, gokpartifacts env ++ "/" ++ d ∈ s.fs →
        env.ok (.removeNotNeeded d) = true) →
      ∃ s', pruneLoop env (gokpartifacts env) notNeeded s = .ok s') ∧
    ((∀ d ∈ notNeeded, gokpartifacts env ++ "/" ++ d ∉ s.fs) →
      ∃ s', pruneLoop env (gokpartifacts env) notNeeded s = .ok s' ∧ s'.fs = s.fs) :=
  ⟨fun s' h => pruneLoop_removed env _ _ s s' h,
   fun q hq hw => pruneLoop_keeps env _ _ s q hq hw,
   pruneLoop_completes env _ _ s,
   pruneLoop_absent env _ _ s⟩
theorem replaceAllFrom_colon (fuel : Nat) (l : List Char) (h : l.length ≤ fuel) :
    replaceAllFrom [':'] ['-'] fuel l = l.map (fun ch => if ch = ':' then '-' else ch) := by
  induction l generalizing fuel with
  | nil => cases fuel <;> rfl
  | cons c cs ih =>
    cases fuel with
    | zero => simp at h
    | succ n =>
      have hn : cs.length ≤ n := by simpa using h
      by_cases hc : c = ':'
      · subst hc
        simp [replaceAllFrom, ih n hn]
      · have hc' : ¬ (':' = c) := fun h => hc h.symm
        simp [replaceAllFrom, ih n hn, hc, hc']

theorem ReplaceAll_colon (name : String) : ReplaceAll name ":" "-" = colonsToHyphens name := by
  unfold ReplaceAll colonsToHyphens
  have h1 : (":" : String).data = [':'] := rfl
  have h2 : ("-" : String).data = ['-'] := rfl
  rw [h1, h2]
  simp only [List.cons_ne_nil, if_false]
  rw [replaceAllFrom_colon _ _ (le_refl _)]

theorem colonsToHyphens_no_colon (name : String) : ':' ∉ (colonsToHyphens name).data := by
  simp only [colonsToHyphens, List.mem_map, not_exists, not_and]
  intro ch _ h
  by_cases hc : ch = ':'
  · simp [hc] at h
  · simp [hc] at h

theorem nodeFileName_no_colon (name : String) : ':' ∉ (nodeFileName name).data := by
  unfold nodeFileName
  simp only [String.data_append, List.mem_append, not_or]
  exact ⟨⟨by decide, colonsToHyphens_no_colon name⟩, by decide⟩
theorem makeGeneric_name (nd : Node) : (makeGeneric nd).metadata.name = nd.metadata.name := by
  simp [makeGeneric, Node.SetResourceVersion, Node.SetUID, Node.SetAnnotations,
    Node.CreationTimestampReset, Node.SetSelfLink, Node.SetManagedFields, Node.SetFinalizers,
    Node.SetOwnerReferences, Node.SetGeneration, Node.StatusReset,
    Node.StatusDaemonEndpointsReset, Node.StatusNodeInfoReset]

theorem assignFirstUsable_metadata (gvks : List GroupVersionKind) (obj : Node) :
    (assignFirstUsable gvks obj).metadata = obj.metadata ∧
    (assignFirstUsable gvks obj).status = obj.status ∧
    (assignFirstUsable gvks obj).spec = obj.spec := by
  induction gvks with
  | nil => exact ⟨rfl, rfl, rfl⟩
  | cons g rest ih =>
    simp only [assignFirstUsable]
    split
    · exact ih
    · split
      · exact ih
      · exact ⟨rfl, rfl, rfl⟩

theorem addTypeInformationToObject_frame (r : Except String (List GroupVersionKind))
    (obj : Node) :
    (addTypeInformationToObject r obj).1.metadata = obj.metadata ∧
    (addTypeInformationToObject r obj).1.status = obj.status ∧
    (addTypeInformationToObject r obj).1.spec = obj.spec := by
  cases r with
  | error e => exact ⟨rfl, rfl, rfl⟩
  | ok gvks => exact assignFirstUsable_metadata gvks obj

/-- Every object handed to the serializer by the loop is the fetched node, made generic and
passed through the type-information step, and it goes to the file named after it. -/
theorem exportNodes_encoded (env : ExportEnv) (c : Cluster) (repodir : String)
    (P : String × Node → Prop) (nodes : List Node) (s : ExportSt)
    (hs : ∀ e ∈ s.encoded, P e)
    (hstep : ∀ nd : Node,
      P (repodir ++ "/" ++ "node-" ++ ReplaceAll nd.metadata.name ":" "-" ++ ".yaml",
         (addTypeInformationToObject (env.objectKinds (makeGeneric nd)) (makeGeneric nd)).1)) :
    ∀ e ∈ (exportNodes env c repodir nodes s).2.encoded, P e := by
  induction nodes generalizing s with
  | nil => simpa [exportNodes] using hs
  | cons node rest ih =>
    simp only [exportNodes]
    split
    · exact ih s hs
    · split
      · exact hs
      · rename_i nd _
        split
        · exact hs
        · have hs2 : ∀ e ∈ s.encoded ++ [(repodir ++ "/" ++ "node-" ++
              ReplaceAll nd.metadata.name ":" "-" ++ ".yaml",
              (addTypeInformationToObject (env.objectKinds (makeGeneric nd))
                (makeGeneric nd)).1)], P e := by
            intro e he
            rcases List.mem_append.mp he with h | h
            · exact hs e h
            · rw [List.mem_singleton.mp h]; exact hstep nd
          split
          · exact hs2
          · exact ih _ hs2

theorem exportClusterScopedYaml_encoded (env : ExportEnv) (repodir : String)
    (P : String × Node → Prop) (s : ExportSt)
    (hs : ∀ e ∈ s.encoded, P e)
    (hstep : ∀ nd : Node,
      P (repodir ++ "/" ++ "node-" ++ ReplaceAll nd.metadata.name ":" "-" ++ ".yaml",
         (addTypeInformationToObject (env.objectKinds (makeGeneric nd)) (makeGeneric nd)).1)) :
    ∀ e ∈ (exportClusterScopedYaml env repodir s).2.encoded, P e := by
  unfold exportClusterScopedYaml
  split
  · exact hs
  · rename_i c _
    have h := exportNodes_encoded env c repodir P c.items s hs hstep
    split <;> rename_i heq <;> rw [heq] at h <;> exact h

theorem string_append_left_cancel (a x y : String) (h : a ++ x = a ++ y) : x = y := by
  have h1 := congrArg String.data h
  simp only [String.data_append] at h1
  exact String.ext (List.append_cancel_left h1)

theorem string_append_right_cancel (x y b : String) (h : x ++ b = y ++ b) : x = y := by
  have h1 := congrArg String.data h
  simp only [String.data_append] at h1
  exact String.ext (List.append_cancel_right h1)

theorem node_path_eq (repodir name : String) :
    repodir ++ "/" ++ "node-" ++ ReplaceAll name ":" "-" ++ ".yaml"
      = repodir ++ "/" ++ nodeFileName name := by
  rw [ReplaceAll_colon]
  simp only [nodeFileName, String.append_assoc]

theorem node_path_injective (repodir a b : String)
    (h : repodir ++ "/" ++ nodeFileName a = repodir ++ "/" ++ nodeFileName b) :
    colonsToHyphens a = colonsToHyphens b := by
  have h1 := string_append_left_cancel _ _ _ h
  unfold nodeFileName at h1
  have h2 := string_append_right_cancel _ _ _ h1
  exact string_append_left_cancel _ _ _ h2

theorem writeFile_placedIn (dir n content : String) (rel : Files) :
    writeFile (dir ++ "/" ++ n) content (placedIn dir rel)
      = placedIn dir (writeFile n content rel) := by
  induction rel with
  | nil => rfl
  | cons f rest ih =>
    obtain ⟨p, c⟩ := f
    by_cases hp : p = n
    · subst hp
      simp [placedIn, writeFile]
    · have hne : ¬ (dir ++ "/" ++ p = dir ++ "/" ++ n) :=
        fun h => hp (string_append_left_cancel _ _ _ h)
      have ih' : writeFile (dir ++ "/" ++ n) content
          (List.map (fun f => (dir ++ "/" ++ f.1, f.2)) rest)
          = List.map (fun f => (dir ++ "/" ++ f.1, f.2)) (writeFile n content rest) := ih
      simp [placedIn, writeFile, hp, hne, ih']

/-- Two runs of the loop over the same cluster into two directories whose file stores hold
the same relative files end with file stores that again hold the same relative files, and
either both run to the end or both panic. -/
theorem exportNodes_two_runs (env : ExportEnv) (c : Cluster) (d1 d2 : String)
    (hcreate : ∀ n, env.create (d1 ++ "/" ++ n) = env.create (d2 ++ "/" ++ n))
    (nodes : List Node) (s1 s2 : ExportSt) (rel : Files)
    (h1 : s1.files = placedIn d1 rel) (h2 : s2.files = placedIn d2 rel) :
    ∃ rel2, (exportNodes env c d1 nodes s1).2.files = placedIn d1 rel2 ∧
      (exportNodes env c d2 nodes s2).2.files = placedIn d2 rel2 ∧
      ((exportNodes env c d1 nodes s1).1 = none ↔ (exportNodes env c d2 nodes s2).1 = none) := by
  induction nodes generalizing s1 s2 rel with
  | nil => exact ⟨rel, h1, h2, by simp [exportNodes]⟩
  | cons node rest ih =>
    simp only [exportNodes]
    split
    · exact ih s1 s2 rel h1 h2
    · cases hget : c.get node.metadata.name with
      | error err => exact ⟨rel, h1, h2, by simp⟩
      | ok nd =>
        simp only [node_path_eq]
        have hc := hcreate (nodeFileName nd.metadata.name)
        cases hcr : env.create (d2 ++ "/" ++ nodeFileName nd.metadata.name)
        · rw [hcr] at hc
          simp only [hc, if_true]
          exact ⟨rel, h1, h2, by simp⟩
        · rw [hcr] at hc
          simp only [hc, Bool.true_eq_false, if_false]
          cases henc : env.encode (addTypeInformationToObject
              (env.objectKinds (makeGeneric nd)) (makeGeneric nd)).1 with
          | error err =>
            refine ⟨writeFile (nodeFileName nd.metadata.name) "" rel, ?_, ?_, by simp⟩
            · simp only [h1, writeFile_placedIn]
            · simp only [h2, writeFile_placedIn]
          | ok bytes =>
            refine ih _ _ (writeFile (nodeFileName nd.metadata.name) bytes
              (writeFile (nodeFileName nd.metadata.name) "" rel)) ?_ ?_
            · simp only [h1, writeFile_placedIn]
            · simp only [h2, writeFile_placedIn]

/-- Two exports through one client (same enumeration in the same order) into two
directories in which the same files can be created leave the same relative files, and one
returns normally exactly when the other does. -/
theorem export_directory_independent (env : ExportEnv) (d1 d2 : String)
    (hcreate : ∀ n, env.create (d1 ++ "/" ++ n) = env.create (d2 ++ "/" ++ n)) :
    ∃ rel : Files,
      (exportClusterScopedYaml env d1 { files := [], encoded := [] }).2.files = placedIn d1 rel ∧
      (exportClusterScopedYaml env d2 { files := [], encoded := [] }).2.files = placedIn d2 rel ∧
      ((exportClusterScopedYaml env d1 { files := [], encoded := [] }).1 = .returned true none ↔
        (exportClusterScopedYaml env d2 { files := [], encoded := [] }).1
          = .returned true none) := by
  unfold exportClusterScopedYaml
  cases hnew : env.newForConfig with
  | error err => exact ⟨[], rfl, rfl, by simp⟩
  | ok c =>
    obtain ⟨rel, hr1, hr2, hiff⟩ := exportNodes_two_runs env c d1 d2 hcreate c.items
      { files := [], encoded := [] } { files := [], encoded := [] } [] rfl rfl
    refine ⟨rel, ?_, ?_, ?_⟩
    · simp only []
      split <;> rename_i heq <;> rw [heq] at hr1 <;> exact hr1
    · simp only []
      split <;> rename_i heq <;> rw [heq] at hr2 <;> exact hr2
    · simp only []
      cases h1 : exportNodes env c d1 c.items { files := [], encoded := [] } with
      | mk r1 s1 =>
        cases h2 : exportNodes env c d2 c.items { files := [], encoded := [] } with
        | mk r2 s2 =>
          rw [h1, h2] at hiff
          simp only at hiff
          cases r1 <;> cases r2 <;> simp_all
theorem writeFile_fresh (path content : String) (l : Files)
    (h : path ∉ l.map Prod.fst) : writeFile path content l = l ++ [(path, content)] := by
  induction l with
  | nil => rfl
  | cons f rest ih =>
    obtain ⟨p, c⟩ := f
    simp only [List.map_cons, List.mem_cons, not_or] at h
    have hp : ¬ (p = path) := fun e => h.1 e.symm
    simp [writeFile, hp, ih h.2]

theorem writeFile_last (path c0 content : String) (l : Files)
    (h : path ∉ l.map Prod.fst) :
    writeFile path content (l ++ [(path, c0)]) = l ++ [(path, content)] := by
  induction l with
  | nil => simp [writeFile]
  | cons f rest ih =>
    obtain ⟨p, c⟩ := f
    simp only [List.map_cons, List.mem_cons, not_or] at h
    have hp : ¬ (p = path) := fun e => h.1 e.symm
    simp [writeFile, hp, ih h.2]

theorem namedNodes_cons_empty (node : Node) (rest : List Node)
    (h : node.metadata.name.length = 0) : namedNodes (node :: rest) = namedNodes rest := by
  simp [namedNodes, h]

theorem namedNodes_cons_named (node : Node) (rest : List Node)
    (h : ¬ node.metadata.name.length = 0) :
    namedNodes (node :: rest) = node :: namedNodes rest := by
  simp [namedNodes, h]

/-- The files the loop leaves behind when every fetch, creation and serialisation succeeds
and the sanitised names of the named nodes are pairwise distinct. -/
theorem exportNodes_files (env : ExportEnv) (c : Cluster) (repodir : String)
    (hencode : ∀ nd, ∃ bytes, env.encode nd = .ok bytes)
    (nodes : List Node) (s : ExportSt)
    (hget : ∀ n ∈ namedNodes nodes,
      ∃ nd, c.get n.metadata.name = .ok nd ∧ nd.metadata.name = n.metadata.name)
    (hcreate : ∀ n ∈ namedNodes nodes,
      env.create (repodir ++ "/" ++ nodeFileName n.metadata.name) = true)
    (hnodup : ((namedNodes nodes).map (fun n => colonsToHyphens n.metadata.name)).Nodup)
    (hfresh : ∀ n ∈ namedNodes nodes,
      repodir ++ "/" ++ nodeFileName n.metadata.name ∉ s.files.map Prod.fst) :
    (exportNodes env c repodir nodes s).1 = none ∧
    (exportNodes env c repodir nodes s).2.files.map Prod.fst =
      s.files.map Prod.fst ++
        (namedNodes nodes).map (fun n => repodir ++ "/" ++ nodeFileName n.metadata.name) := by
  induction nodes generalizing s with
  | nil => simp [exportNodes, namedNodes]
  | cons node rest ih =>
    simp only [exportNodes]
    by_cases hname : node.metadata.name.length = 0
    · simp only [hname, if_true]
      rw [namedNodes_cons_empty node rest hname] at hget hcreate hnodup hfresh ⊢
      exact ih s hget hcreate hnodup hfresh
    · simp only [hname, if_false]
      rw [namedNodes_cons_named node rest hname] at hget hcreate hnodup hfresh ⊢
      obtain ⟨nd, hnd, hndname⟩ := hget node (List.mem_cons_self _ _)
      have hcr := hcreate node (List.mem_cons_self _ _)
      have hfr := hfresh node (List.mem_cons_self _ _)
      simp only [hnd, node_path_eq, hndname, hcr, Bool.true_eq_false, if_false]
      obtain ⟨bytes, hbytes⟩ := hencode (addTypeInformationToObject
        (env.objectKinds (makeGeneric nd)) (makeGeneric nd)).1
      simp only [hbytes]
      rw [writeFile_fresh _ _ _ hfr, writeFile_last _ _ _ _ hfr]
      rw [List.map_cons, List.nodup_cons] at hnodup
      have := ih { files := s.files ++ [(repodir ++ "/" ++ nodeFileName node.metadata.name, bytes)],
                   encoded := s.encoded ++ [(repodir ++ "/" ++ nodeFileName node.metadata.name,
                     (addTypeInformationToObject (env.objectKinds (makeGeneric nd))
                       (makeGeneric nd)).1)] }
        (fun n hn => hget n (List.mem_cons_of_mem _ hn))
        (fun n hn => hcreate n (List.mem_cons_of_mem _ hn))
        hnodup.2
        (by
          intro n hn hmem
          simp only [List.map_append, List.map_cons, List.map_nil, List.mem_append,
            List.mem_singleton] at hmem
          rcases hmem with hmem | hmem
          · exact hfresh n (List.mem_cons_of_mem _ hn) hmem
          · exact hnodup.1 (List.mem_map.mpr ⟨n, hn, (node_path_injective _ _ _ hmem)⟩))
      refine ⟨this.1, ?_⟩
      rw [this.2]
      simp
/-- Claim C9 as stated fails: the two distinct non-empty node names `a:b` and `a-b` map to
the same file, and the export of a cluster with exactly these two nodes writes one file,
not two. -/
theorem C9_colliding_names_share_a_file :
    ["a:b", "a-b"].Nodup ∧
    (exportClusterScopedYaml (sampleEnv ["a:b", "a-b"] nodeKinds) "out"
        { files := [], encoded := [] }).1 = .returned true none ∧
    (exportClusterScopedYaml (sampleEnv ["a:b", "a-b"] nodeKinds) "out"
        { files := [], encoded := [] }).2.files = [("out/node-a-b.yaml", "v1/Node a-b")] ∧
    ¬ ((exportClusterScopedYaml (sampleEnv ["a:b", "a-b"] nodeKinds) "out"
        { files := [], encoded := [] }).2.files.length = 2) := by
  decide

/-- Claim C9, amended.  When the client is built, every named node of the enumeration is
fetched under its name, every file can be created, every object can be serialised, and the
names of the named nodes stay pairwise distinct once their colons are turned into hyphens,
`exportClusterScopedYaml` started on an empty file store returns `(true, nil)` and leaves
exactly one file per named node, `<repodir>/node-<sanitized-name>.yaml`, in the order of
the enumeration and without repetition; unnamed nodes add no file and no error. -/
theorem C9_one_file_per_sanitised_name (env : ExportEnv) (c : Cluster) (repodir : String)
    (hnew : env.newForConfig = .ok c)
    (hget : ∀ n ∈ namedNodes c.items,
      ∃ nd, c.get n.metadata.name = .ok nd ∧ nd.metadata.name = n.metadata.name)
    (hcreate : ∀ n ∈ namedNodes c.items,
      env.create (repodir ++ "/" ++ nodeFileName n.metadata.name) = true)
    (hencode : ∀ nd, ∃ bytes, env.encode nd = .ok bytes)
    (hnodup : ((namedNodes c.items).map (fun n => colonsToHyphens n.metadata.name)).Nodup) :
    (exportClusterScopedYaml env repodir { files := [], encoded := [] }).1
        = .returned true none ∧
    (exportClusterScopedYaml env repodir { files := [], encoded := [] }).2.files.map Prod.fst
        = (namedNodes c.items).map (fun n => repodir ++ "/" ++ nodeFileName n.metadata.name) ∧
    (exportClusterScopedYaml env repodir { files := [], encoded := [] }).2.files.length
        = (namedNodes c.items).length ∧
    ((exportClusterScopedYaml env repodir
        { files := [], encoded := [] }).2.files.map Prod.fst).Nodup := by
  obtain ⟨hres, hfiles⟩ := exportNodes_files env c repodir hencode c.items
    { files := [], encoded := [] } hget hcreate hnodup (by simp)
  have hexp : exportClusterScopedYaml env repodir { files := [], encoded := [] }
      = (.returned true none,
          (exportNodes env c repodir c.items { files := [], encoded := [] }).2) := by
    unfold exportClusterScopedYaml
    rw [hnew]
    simp only []
    cases h : exportNodes env c repodir c.items { files := [], encoded := [] } with
    | mk r s1 =>
      rw [h] at hres
      simp only at hres
      subst hres
      rfl
  rw [hexp]
  simp only [List.map_nil, List.nil_append] at hfiles
  refine ⟨rfl, hfiles, ?_, ?_⟩
  · have := congrArg List.length hfiles
    simpa using this
  · rw [hfiles]
    refine (List.nodup_map_iff_inj_on (List.Nodup.of_map _ hnodup)).mpr ?_
    intro x hx y hy hxy
    exact (List.inj_on_of_nodup_map hnodup) hx hy (node_path_injective _ _ _ hxy)

/-- Claim C9, amended, at a cluster with the nodes `node:1`, an unnamed node and `b`. -/
theorem C9_one_file_per_sanitised_name_witness :
    (exportClusterScopedYaml (sampleEnv ["node:1", "", "b"] nodeKinds) "out"
        { files := [], encoded := [] }).2.files.map Prod.fst
      = ["out/node-node-1.yaml", "out/node-b.yaml"] := by
  have hitems : namedNodes (sampleCluster ["node:1", "", "b"]).items
      = [sampleNode "node:1", sampleNode "b"] := by decide
  have h := C9_one_file_per_sanitised_name (sampleEnv ["node:1", "", "b"] nodeKinds)
    (sampleCluster ["node:1", "", "b"]) "out" rfl
    (by
      rw [hitems]
      intro n hn
      simp only [List.mem_cons, List.mem_singleton, List.not_mem_nil, or_false] at hn
      rcases hn with rfl | rfl
      · exact ⟨sampleNode "node:1", rfl, rfl⟩
      · exact ⟨sampleNode "b", rfl, rfl⟩)
    (fun _ _ => rfl) (fun _ => ⟨_, rfl⟩) (by rw [hitems]; decide)
  rw [h.2.1, hitems]
  decide
/-- Claim C10, evaluated where it fails.  For the cluster name `kind` the target credential
file and the credential file of the ephemeral control plane are the same path; every call of
the run succeeds, the prune loop removes `kind.kubeconfig` from the final directory, and
the target credential file is not among the files the run leaves behind. -/
theorem C10_cluster_named_kind_loses_credentials :
    CapiCfg (envAllSucceed "kind") = KindCfg (envAllSucceed "kind") ∧
    (∃ s, azurecreateCmd.Run (envAllSucceed "kind") [] = .ok s ∧
      s.fs = ["/home/u/.gokp/kind", "/home/u/.gokp"] ∧
      (Call.removeNotNeeded "kind.kubeconfig", true) ∈ s.trace ∧
      gokpartifacts (envAllSucceed "kind") ++ "/" ++ "kind" ++ ".kubeconfig" ∉ s.fs) ∧
    (∃ s, azurecreateCmd.Run (envAllSucceed "demo") [] = .ok s ∧
      s.fs = ["/home/u/.gokp/demo/demo.kubeconfig", "/home/u/.gokp/demo",
              "/home/u/.gokp"]) := by
  refine ⟨by decide, ⟨_, rfl, by decide, by decide, by decide⟩, ⟨_, rfl, by decide⟩⟩
theorem kubeconfig_not_denylisted (name d : String) (hd : d ∈ notNeeded)
    (hname : name ≠ "kind") : name ++ ".kubeconfig" ≠ d := by
  intro h
  have hsuf : (".kubeconfig" : String).data <:+ d.data := by
    rw [← h, String.data_append]; exact List.suffix_append _ _
  simp only [notNeeded, List.mem_cons, List.mem_singleton, List.not_mem_nil, or_false] at hd
  rcases hd with rfl | rfl | rfl | rfl | rfl | rfl | rfl | rfl | rfl
  · exact absurd hsuf (by decide)
  · exact absurd hsuf (by decide)
  · exact absurd hsuf (by decide)
  · exact absurd hsuf (by decide)
  · exact absurd hsuf (by decide)
  · exact absurd hsuf (by decide)
  · exact absurd hsuf (by decide)
  · exact absurd hsuf (by decide)
  · exact hname (string_append_right_cancel name "kind" ".kubeconfig" h)

/-- Pruning and the target credential file: for a cluster name other than `kind` that
contains no slash, the file `<cluster-name>.kubeconfig` in the final directory is neither a
denylisted path nor inside one, so the prune loop leaves it in place however it ends. -/
theorem pruneLoop_keeps_target_credentials (env : Env) (s : St)
    (hname : env.clusterName ≠ "kind") (hslash : '/' ∉ env.clusterName.data)
    (h : gokpartifacts env ++ "/" ++ env.clusterName ++ ".kubeconfig" ∈ s.fs) :
    gokpartifacts env ++ "/" ++ env.clusterName ++ ".kubeconfig"
      ∈ (finalState (pruneLoop env (gokpartifacts env) notNeeded s)).fs := by
  refine pruneLoop_keeps env _ _ s _ h (fun d hd => ?_)
  have hassoc : gokpartifacts env ++ "/" ++ env.clusterName ++ ".kubeconfig"
      = gokpartifacts env ++ "/" ++ (env.clusterName ++ ".kubeconfig") := by
    simp only [String.append_assoc]
  rw [hassoc]
  simp only [within, under, Bool.or_eq_false_iff, beq_eq_false_iff_ne, ne_eq]
  refine ⟨fun e => ?_, ?_⟩
  · exact kubeconfig_not_denylisted _ d hd hname (string_append_left_cancel _ _ _ e)
  · rw [Bool.eq_false_iff]
    intro hpre
    rw [List.isPrefixOf_iff_prefix] at hpre
    simp only [String.data_append, List.append_assoc] at hpre
    have h1 := (List.prefix_append_right_inj _).mp hpre
    have h2 := (List.prefix_append_right_inj _).mp h1
    have hmem : '/' ∈ env.clusterName.data ++ (".kubeconfig" : String).data :=
      h2.subset (by simp [show ("/" : String).data = ['/'] from rfl])
    rcases List.mem_append.mp hmem with hm | hm
    · exact hslash hm
    · exact absurd hm (by decide)

/-! ## Instances of the general statements -/

/-- Claim C1 at a run whose prerequisite check fails. -/
theorem C1_stage_order_witness :
    (stageTrace (finalState (azurecreateCmd.Run envPreReqFails []))).map Prod.fst
      <+: fixedOrder (decide (envPreReqFails.gitOpsController = "argocd")) :=
  (C1_stage_order envPreReqFails []).1

/-- Claim C6 at the final directory of the cluster `demo`: the ephemeral credential file
and the installer output go, the target credential file stays. -/
theorem C6_prune_witness :
    (finalState (pruneLoop (envAllSucceed "demo") (gokpartifacts (envAllSucceed "demo"))
        notNeeded sampleRelocated)).fs
      = ["/home/u/.gokp/demo", "/home/u/.gokp/demo/demo.kubeconfig"] ∧
    "/home/u/.gokp/demo/demo.kubeconfig" ∈
      (finalState (pruneLoop (envAllSucceed "demo") (gokpartifacts (envAllSucceed "demo"))
        notNeeded sampleRelocated)).fs :=
  ⟨by decide,
   (C6_prune (envAllSucceed "demo") sampleRelocated).2.1
     "/home/u/.gokp/demo/demo.kubeconfig" (by decide) (by decide)⟩

/-- Claim C7 at the selector `helm`: the run stops after the creation of the
repository. -/
theorem C7_unknown_controller_aborts_witness :
    envUnknownController.gitOpsController ≠ "argocd" ∧
    envUnknownController.gitOpsController ≠ "fluxcd" ∧
    (finalState (azurecreateCmd.Run envUnknownController [])).trace =
      [(.mkdirHome, true), (.createWorkDir, true), (.checkPreReqs, true),
       (.createKindCluster, true), (.createAzureK8sInstance, true), (.createRepo, true)] :=
  ⟨by decide, by decide,
   (C7_unknown_controller_aborts envUnknownController [] (by decide) (by decide)).2.2
     rfl rfl rfl rfl rfl⟩
/-- The preceding statement at the final directory of the cluster `demo`. -/
theorem pruneLoop_keeps_target_credentials_witness :
    "/home/u/.gokp/demo/demo.kubeconfig" ∈
      (finalState (pruneLoop (envAllSucceed "demo") (gokpartifacts (envAllSucceed "demo"))
        notNeeded sampleRelocated)).fs :=
  pruneLoop_keeps_target_credentials (envAllSucceed "demo") sampleRelocated
    (by decide) (by decide) (by decide)
theorem writeFile_mem_self (path content : String) (l : Files) :
    (path, content) ∈ writeFile path content l := by
  induction l with
  | nil => simp [writeFile]
  | cons f rest ih =>
    obtain ⟨p, c⟩ := f
    by_cases hp : p = path
    · simp [writeFile, hp]
    · simp [writeFile, hp, ih]

theorem writeFile_mem_of_ne (path content q b : String) (l : Files)
    (h : (q, b) ∈ l) (hq : q ≠ path) : (q, b) ∈ writeFile path content l := by
  induction l with
  | nil => cases h
  | cons f rest ih =>
    obtain ⟨p, c⟩ := f
    by_cases hp : p = path
    · subst hp
      rcases List.mem_cons.mp h with h | h
      · exact absurd (congrArg Prod.fst h) hq
      · simp [writeFile, h]
    · rcases List.mem_cons.mp h with h | h
      · simp [writeFile, hp, h]
      · simp [writeFile, hp, ih h]

theorem writeFile_mem_cases (path content q b : String) (l : Files)
    (h : (q, b) ∈ writeFile path content l) : (q, b) = (path, content) ∨ (q, b) ∈ l := by
  induction l with
  | nil => left; simpa [writeFile] using h
  | cons f rest ih =>
    obtain ⟨p, c⟩ := f
    by_cases hp : p = path
    · subst hp
      simp only [writeFile, if_true, List.mem_cons] at h
      rcases h with h | h
      · exact Or.inl h
      · exact Or.inr (List.mem_cons_of_mem _ h)
    · simp only [writeFile, hp, if_false, List.mem_cons] at h
      rcases h with h | h
      · exact Or.inr (by rw [h]; exact List.mem_cons_self _ _)
      · rcases ih h with h | h
        · exact Or.inl h
        · exact Or.inr (List.mem_cons_of_mem _ h)

theorem writeFile_writeFile (path c1 c2 : String) (l : Files) :
    writeFile path c2 (writeFile path c1 l) = writeFile path c2 l := by
  induction l with
  | nil => simp [writeFile]
  | cons f rest ih =>
    obtain ⟨p, c⟩ := f
    by_cases hp : p = path
    · simp [writeFile, hp]
    · simp [writeFile, hp, ih]

theorem writeFile_key_self (path content : String) (l : Files) :
    path ∈ (writeFile path content l).map Prod.fst :=
  List.mem_map.mpr ⟨(path, content), writeFile_mem_self path content l, rfl⟩

theorem writeFile_keys_mono (path content q : String) (l : Files)
    (h : q ∈ l.map Prod.fst) : q ∈ (writeFile path content l).map Prod.fst := by
  by_cases hq : q = path
  · rw [hq]; exact writeFile_key_self path content l
  · obtain ⟨⟨q', b⟩, hmem, hfst⟩ := List.mem_map.mp h
    have hq' : q' = q := hfst
    subst hq'
    exact List.mem_map.mpr ⟨(q', b), writeFile_mem_of_ne path content q' b l hmem hq, rfl⟩

theorem writeFile_keys_cases (path content q : String) (l : Files)
    (h : q ∈ (writeFile path content l).map Prod.fst) : q = path ∨ q ∈ l.map Prod.fst := by
  obtain ⟨⟨q', b⟩, hmem, hfst⟩ := List.mem_map.mp h
  have hq' : q' = q := hfst
  subst hq'
  rcases writeFile_mem_cases path content q' b l hmem with h | h
  · exact Or.inl (congrArg Prod.fst h)
  · exact Or.inr (List.mem_map.mpr ⟨(q', b), h, rfl⟩)

/-- How the files and the record of serialised objects of the loop hang together: files
and record entries are never lost, every new record entry has its file, and every new file
has its record entry. -/
theorem exportNodes_files_and_encoded (env : ExportEnv) (c : Cluster) (repodir : String)
    (nodes : List Node) (s : ExportSt) :
    (∀ q ∈ s.files.map Prod.fst, q ∈ (exportNodes env c repodir nodes s).2.files.map Prod.fst) ∧
    (∀ e ∈ s.encoded, e ∈ (exportNodes env c repodir nodes s).2.encoded) ∧
    (∀ e ∈ (exportNodes env c repodir nodes s).2.encoded,
      e ∈ s.encoded ∨ e.1 ∈ (exportNodes env c repodir nodes s).2.files.map Prod.fst) ∧
    (∀ q ∈ (exportNodes env c repodir nodes s).2.files.map Prod.fst,
      q ∈ s.files.map Prod.fst ∨
        q ∈ (exportNodes env c repodir nodes s).2.encoded.map Prod.fst) := by
  induction nodes generalizing s with
  | nil =>
    simp only [exportNodes]
    exact ⟨fun q h => h, fun e h => h, fun e h => Or.inl h, fun q h => Or.inl h⟩
  | cons node rest ih =>
    simp only [exportNodes]
    split
    · exact ih s
    · split
      · exact ⟨fun q h => h, fun e h => h, fun e h => Or.inl h, fun q h => Or.inl h⟩
      · rename_i nd _
        split
        · exact ⟨fun q h => h, fun e h => h, fun e h => Or.inl h, fun q h => Or.inl h⟩
        · split
          · -- the serializer fails: the file exists, empty
            refine ⟨fun q h => writeFile_keys_mono _ _ _ _ h,
              fun e h => List.mem_append_left _ h, ?_, ?_⟩
            · intro e he
              rcases List.mem_append.mp he with h | h
              · exact Or.inl h
              · rw [List.mem_singleton.mp h]
                exact Or.inr (writeFile_key_self _ _ _)
            · intro q hq
              rcases writeFile_keys_cases _ _ _ _ hq with h | h
              · right; rw [h]; simp
              · exact Or.inl h
          · obtain ⟨h1, h2, h3, h4⟩ := ih
              { files := writeFile
                  (repodir ++ "/" ++ "node-" ++ ReplaceAll nd.metadata.name ":" "-" ++ ".yaml")
                  ‹String›
                  (writeFile
                    (repodir ++ "/" ++ "node-" ++ ReplaceAll nd.metadata.name ":" "-" ++ ".yaml")
                    "" s.files),
                encoded := s.encoded ++
                  [(repodir ++ "/" ++ "node-" ++ ReplaceAll nd.metadata.name ":" "-" ++ ".yaml",
                    (addTypeInformationToObject (env.objectKinds (makeGeneric nd))
                      (makeGeneric nd)).1)] }
            refine ⟨fun q h => h1 q (writeFile_keys_mono _ _ _ _ (writeFile_keys_mono _ _ _ _ h)),
              fun e h => h2 e (List.mem_append_left _ h), ?_, ?_⟩
            · intro e he
              rcases h3 e he with h | h
              · rcases List.mem_append.mp h with h | h
                · exact Or.inl h
                · rw [List.mem_singleton.mp h]
                  exact Or.inr (h1 _ (writeFile_key_self _ _ _))
              · exact Or.inr h
            · intro q hq
              rcases h4 q hq with h | h
              · rcases writeFile_keys_cases _ _ _ _ h with h | h
                · right
                  rw [h]
                  exact List.mem_map.mpr ⟨_, h2 _ (List.mem_append_right _
                    (List.mem_singleton.mpr rfl)), rfl⟩
                · rcases writeFile_keys_cases _ _ _ _ h with h | h
                  · right
                    rw [h]
                    exact List.mem_map.mpr ⟨_, h2 _ (List.mem_append_right _
                      (List.mem_singleton.mpr rfl)), rfl⟩
                  · exact Or.inl h
              · exact Or.inr h

/-- When the loop runs to its end, every named node of the enumeration was fetched and the
file named after the fetched node exists. -/
theorem exportNodes_written (env : ExportEnv) (c : Cluster) (repodir : String)
    (nodes : List Node) (s : ExportSt)
    (hend : (exportNodes env c repodir nodes s).1 = none) :
    ∀ node ∈ nodes, node.metadata.name.length ≠ 0 →
      ∃ nd, c.get node.metadata.name = .ok nd ∧
        repodir ++ "/" ++ nodeFileName nd.metadata.name
          ∈ (exportNodes env c repodir nodes s).2.files.map Prod.fst := by
  induction nodes generalizing s with
  | nil => intro node h; cases h
  | cons n rest ih =>
    intro node hnode hname
    simp only [exportNodes] at hend ⊢
    by_cases hn : n.metadata.name.length = 0
    · simp only [hn, if_true] at hend ⊢
      rcases List.mem_cons.mp hnode with h | h
      · exact absurd (h ▸ hn) hname
      · exact ih s hend node h hname
    · simp only [hn, if_false] at hend ⊢
      cases hget : c.get n.metadata.name with
      | error err => simp [hget] at hend
      | ok nd =>
        simp only [hget] at hend ⊢
        by_cases hcr : env.create
            (repodir ++ "/" ++ "node-" ++ ReplaceAll nd.metadata.name ":" "-" ++ ".yaml") = false
        · simp [hcr] at hend
        · simp only [hcr, if_false] at hend ⊢
          cases henc : env.encode (addTypeInformationToObject
              (env.objectKinds (makeGeneric nd)) (makeGeneric nd)).1 with
          | error err => simp [henc] at hend
          | ok bytes =>
            simp only [henc] at hend ⊢
            rcases List.mem_cons.mp hnode with h | h
            · subst h
              refine ⟨nd, hget, ?_⟩
              rw [← node_path_eq]
              exact (exportNodes_files_and_encoded env c repodir rest _).1 _
                (writeFile_key_self _ _ _)
            · exact ih _ hend node h hname

theorem exportClusterScopedYaml_ok (env : ExportEnv) (c : Cluster) (repodir : String)
    (s : ExportSt) (h : env.newForConfig = .ok c) :
    (exportClusterScopedYaml env repodir s).2 = (exportNodes env c repodir c.items s).2 ∧
    ((exportClusterScopedYaml env repodir s).1 = .returned true none ↔
      (exportNodes env c repodir c.items s).1 = none) := by
  unfold exportClusterScopedYaml
  rw [h]
  simp only []
  cases hr : exportNodes env c repodir c.items s with
  | mk r s1 =>
    cases r with
    | none => simp
    | some msg => simp

theorem exportClusterScopedYaml_error (env : ExportEnv) (err : String) (repodir : String)
    (s : ExportSt) (h : env.newForConfig = .error err) :
    exportClusterScopedYaml env repodir s = (.returned false (some err), s) := by
  unfold exportClusterScopedYaml
  rw [h]

/-- Claim C3.  Every object handed to the serializer, whatever its name, is written to the
file `<repodir>/node-<name with every colon turned into a hyphen>.yaml`: that is the path
recorded for it, the file of that path exists in the file store, the file name contains no
colon, and in any other run, to any directory, an object of the same name goes to the file
of the same name.  Every file the export adds to the store is the file of such an object.
And when the export returns normally, every named node of the enumeration was fetched and
the file named after the fetched node exists. -/
theorem C3_file_name (env : ExportEnv) (repodir : String) (files : Files) :
    (∀ e ∈ (exportClusterScopedYaml env repodir { files := files, encoded := [] }).2.encoded,
      e.1 = repodir ++ "/" ++ nodeFileName e.2.metadata.name ∧
      ':' ∉ (nodeFileName e.2.metadata.name).data ∧
      e.1 ∈ (exportClusterScopedYaml env repodir
          { files := files, encoded := [] }).2.files.map Prod.fst ∧
      (∀ (env2 : ExportEnv) (repodir2 : String) (files2 : Files),
        ∀ e2 ∈ (exportClusterScopedYaml env2 repodir2
            { files := files2, encoded := [] }).2.encoded,
          e2.2.metadata.name = e.2.metadata.name →
          e2.1 = repodir2 ++ "/" ++ nodeFileName e.2.metadata.name)) ∧
    (∀ q ∈ (exportClusterScopedYaml env repodir
          { files := files, encoded := [] }).2.files.map Prod.fst,
      q ∈ files.map Prod.fst ∨
      ∃ e ∈ (exportClusterScopedYaml env repodir { files := files, encoded := [] }).2.encoded,
        q = repodir ++ "/" ++ nodeFileName e.2.metadata.name) ∧
    (∀ c, env.newForConfig = .ok c →
      (exportClusterScopedYaml env repodir { files := files, encoded := [] }).1
        = .returned true none →
      ∀ node ∈ c.items, node.metadata.name.length ≠ 0 →
        ∃ nd, c.get node.metadata.name = .ok nd ∧
          repodir ++ "/" ++ nodeFileName nd.metadata.name
            ∈ (exportClusterScopedYaml env repodir
                { files := files, encoded := [] }).2.files.map Prod.fst) := by
  have key : ∀ (env : ExportEnv) (repodir : String) (files : Files),
      ∀ e ∈ (exportClusterScopedYaml env repodir { files := files, encoded := [] }).2.encoded,
        e.1 = repodir ++ "/" ++ nodeFileName e.2.metadata.name := by
    intro env repodir files
    refine exportClusterScopedYaml_encoded env repodir _ _ (by simp) (fun nd => ?_)
    obtain ⟨hm, _, _⟩ :=
      addTypeInformationToObject_frame (env.objectKinds (makeGeneric nd)) (makeGeneric nd)
    simp only [hm, makeGeneric_name]
    exact node_path_eq repodir nd.metadata.name
  have hfile : ∀ e ∈ (exportClusterScopedYaml env repodir
        { files := files, encoded := [] }).2.encoded,
      e.1 ∈ (exportClusterScopedYaml env repodir
        { files := files, encoded := [] }).2.files.map Prod.fst := by
    cases hnew : env.newForConfig with
    | error err =>
      rw [exportClusterScopedYaml_error env err repodir _ hnew]
      intro e he; cases he
    | ok c =>
      rw [(exportClusterScopedYaml_ok env c repodir _ hnew).1]
      intro e he
      rcases (exportNodes_files_and_encoded env c repodir c.items
        { files := files, encoded := [] }).2.2.1 e he with h | h
      · cases h
      · exact h
  refine ⟨?_, ?_, ?_⟩
  · intro e he
    refine ⟨key env repodir files e he, nodeFileName_no_colon _, hfile e he, ?_⟩
    intro env2 repodir2 files2 e2 he2 hname
    rw [← hname]
    exact key env2 repodir2 files2 e2 he2
  · intro q hq
    cases hnew : env.newForConfig with
    | error err =>
      rw [exportClusterScopedYaml_error env err repodir _ hnew] at hq
      exact Or.inl hq
    | ok c =>
      have hq' := hq
      rw [(exportClusterScopedYaml_ok env c repodir _ hnew).1] at hq'
      rcases (exportNodes_files_and_encoded env c repodir c.items
        { files := files, encoded := [] }).2.2.2 q hq' with h | h
      · exact Or.inl h
      · right
        obtain ⟨e, he, hfst⟩ := List.mem_map.mp h
        rw [← (exportClusterScopedYaml_ok env c repodir _ hnew).1] at he
        exact ⟨e, he, by rw [← hfst]; exact key env repodir files e he⟩
  · intro c hnew hret node hnode hname
    rw [(exportClusterScopedYaml_ok env c repodir _ hnew).1]
    exact exportNodes_written env c repodir c.items _
      ((exportClusterScopedYaml_ok env c repodir _ hnew).2.mp hret) node hnode hname

/-- Claim C3 at the node name `node:1`: the export of a cluster with this one node returns
normally and leaves exactly the file `out/node-node-1.yaml`. -/
theorem C3_file_name_witness :
    sampleEncoded ∈ (exportClusterScopedYaml (sampleEnv ["node:1"] nodeKinds) "out"
        { files := [], encoded := [] }).2.encoded ∧
    sampleEncoded.1 = "out" ++ "/" ++ nodeFileName sampleEncoded.2.metadata.name ∧
    nodeFileName "node:1" = "node-node-1.yaml" ∧
    sampleEncoded.1 ∈ (exportClusterScopedYaml (sampleEnv ["node:1"] nodeKinds) "out"
        { files := [], encoded := [] }).2.files.map Prod.fst ∧
    (exportClusterScopedYaml (sampleEnv ["node:1"] nodeKinds) "out"
        { files := [], encoded := [] }).2.files.map Prod.fst = ["out/node-node-1.yaml"] ∧
    (∃ nd, (sampleCluster ["node:1"]).get (sampleNode "node:1").metadata.name = .ok nd ∧
      "out" ++ "/" ++ nodeFileName nd.metadata.name
        ∈ (exportClusterScopedYaml (sampleEnv ["node:1"] nodeKinds) "out"
            { files := [], encoded := [] }).2.files.map Prod.fst) :=
  have h := C3_file_name (sampleEnv ["node:1"] nodeKinds) "out" []
  ⟨by decide, (h.1 sampleEncoded (by decide)).1, by decide,
   (h.1 sampleEncoded (by decide)).2.2.1, by decide,
   h.2.2 (sampleCluster ["node:1"]) rfl (by decide) (sampleNode "node:1") (by decide)
     (by decide)⟩
/-- When the loop runs to its end, every file of the store was there before or holds the
serialisation of a fetched named node, under the name of that node. -/
theorem exportNodes_file_origin (env : ExportEnv) (c : Cluster) (repodir : String)
    (nodes : List Node) (s : ExportSt)
    (hend : (exportNodes env c repodir nodes s).1 = none) :
    ∀ q b, (q, b) ∈ (exportNodes env c repodir nodes s).2.files →
      (q, b) ∈ s.files ∨
      ∃ node ∈ nodes, node.metadata.name.length ≠ 0 ∧
        ∃ nd, c.get node.metadata.name = .ok nd ∧
          q = repodir ++ "/" ++ nodeFileName nd.metadata.name ∧
          env.encode (serialised env nd) = .ok b := by
  induction nodes generalizing s with
  | nil => intro q b h; exact Or.inl (by simpa [exportNodes] using h)
  | cons n rest ih =>
    intro q b hq
    simp only [exportNodes] at hend hq
    by_cases hn : n.metadata.name.length = 0
    · simp only [hn, if_true] at hend hq
      rcases ih s hend q b hq with h | ⟨node, hnode, h⟩
      · exact Or.inl h
      · exact Or.inr ⟨node, List.mem_cons_of_mem _ hnode, h⟩
    · simp only [hn, if_false] at hend hq
      cases hget : c.get n.metadata.name with
      | error err => simp [hget] at hend
      | ok nd =>
        simp only [hget] at hend hq
        by_cases hcr : env.create
            (repodir ++ "/" ++ "node-" ++ ReplaceAll nd.metadata.name ":" "-" ++ ".yaml") = false
        · simp [hcr] at hend
        · simp only [hcr, if_false] at hend hq
          cases henc : env.encode (addTypeInformationToObject
              (env.objectKinds (makeGeneric nd)) (makeGeneric nd)).1 with
          | error err => simp [henc] at hend
          | ok bytes =>
            simp only [henc] at hend hq
            rcases ih _ hend q b hq with h | ⟨node, hnode, h⟩
            · simp only [writeFile_writeFile] at h
              rcases writeFile_mem_cases _ _ _ _ _ h with h | h
              · right
                refine ⟨n, List.mem_cons_self _ _, hn, nd, hget, ?_, ?_⟩
                · have hq1 : q = _ := congrArg Prod.fst h
                  rw [← node_path_eq]; exact hq1
                · have hb1 : b = bytes := congrArg Prod.snd h
                  rw [hb1]; exact henc
              · exact Or.inl h
            · exact Or.inr ⟨node, List.mem_cons_of_mem _ hnode, h⟩

/-- When the loop runs to its end, a file of the store keeps its content if every node
written to the same path serialises to that content. -/
theorem exportNodes_file_kept (env : ExportEnv) (c : Cluster) (repodir : String)
    (nodes : List Node) (s : ExportSt)
    (hend : (exportNodes env c repodir nodes s).1 = none) (q b : String)
    (hq : (q, b) ∈ s.files)
    (hsame : ∀ node ∈ nodes, node.metadata.name.length ≠ 0 →
      ∀ nd, c.get node.metadata.name = .ok nd →
        repodir ++ "/" ++ nodeFileName nd.metadata.name = q →
        env.encode (serialised env nd) = .ok b) :
    (q, b) ∈ (exportNodes env c repodir nodes s).2.files := by
  induction nodes generalizing s with
  | nil => simpa [exportNodes] using hq
  | cons n rest ih =>
    simp only [exportNodes] at hend ⊢
    by_cases hn : n.metadata.name.length = 0
    · simp only [hn, if_true] at hend ⊢
      exact ih s hend hq (fun node h => hsame node (List.mem_cons_of_mem _ h))
    · simp only [hn, if_false] at hend ⊢
      cases hget : c.get n.metadata.name with
      | error err => simp [hget] at hend
      | ok nd =>
        simp only [hget] at hend ⊢
        by_cases hcr : env.create
            (repodir ++ "/" ++ "node-" ++ ReplaceAll nd.metadata.name ":" "-" ++ ".yaml") = false
        · simp [hcr] at hend
        · simp only [hcr, if_false] at hend ⊢
          cases henc : env.encode (addTypeInformationToObject
              (env.objectKinds (makeGeneric nd)) (makeGeneric nd)).1 with
          | error err => simp [henc] at hend
          | ok bytes =>
            simp only [henc] at hend ⊢
            refine ih _ hend ?_ (fun node h => hsame node (List.mem_cons_of_mem _ h))
            simp only [writeFile_writeFile]
            by_cases hp : q = repodir ++ "/" ++ "node-" ++
                ReplaceAll nd.metadata.name ":" "-" ++ ".yaml"
            · have hb := hsame n (List.mem_cons_self _ _) hn nd hget
                (by rw [hp, node_path_eq])
              have : bytes = b := by
                have h2 : env.encode (serialised env nd) = .ok bytes := henc
                rw [hb] at h2
                exact (Except.ok.inj h2).symm
              rw [hp, this]
              exact writeFile_mem_self _ _ _
            · exact writeFile_mem_of_ne _ _ _ _ _ hq hp

/-- When the loop runs to its end and no two different fetched nodes share a sanitised
name, every named node of the enumeration has its file, and the file holds the
serialisation of the fetched node. -/
theorem exportNodes_file_present (env : ExportEnv) (c : Cluster) (repodir : String)
    (nodes : List Node) (s : ExportSt)
    (hend : (exportNodes env c repodir nodes s).1 = none)
    (hinj : ∀ n ∈ nodes, n.metadata.name.length ≠ 0 → ∀ m ∈ nodes,
      m.metadata.name.length ≠ 0 → ∀ a b,
      c.get n.metadata.name = .ok a → c.get m.metadata.name = .ok b →
      colonsToHyphens a.metadata.name = colonsToHyphens b.metadata.name → a = b) :
    ∀ node ∈ nodes, node.metadata.name.length ≠ 0 →
      ∃ nd b, c.get node.metadata.name = .ok nd ∧ env.encode (serialised env nd) = .ok b ∧
        (repodir ++ "/" ++ nodeFileName nd.metadata.name, b)
          ∈ (exportNodes env c repodir nodes s).2.files := by
  induction nodes generalizing s with
  | nil => intro node h; cases h
  | cons n rest ih =>
    intro node hnode hname
    have hinj' : ∀ n ∈ rest, n.metadata.name.length ≠ 0 → ∀ m ∈ rest,
        m.metadata.name.length ≠ 0 → ∀ a b,
        c.get n.metadata.name = .ok a → c.get m.metadata.name = .ok b →
        colonsToHyphens a.metadata.name = colonsToHyphens b.metadata.name → a = b :=
      fun n hn hnn m hm hmn =>
        hinj n (List.mem_cons_of_mem _ hn) hnn m (List.mem_cons_of_mem _ hm) hmn
    simp only [exportNodes] at hend ⊢
    by_cases hn : n.metadata.name.length = 0
    · simp only [hn, if_true] at hend ⊢
      rcases List.mem_cons.mp hnode with h | h
      · exact absurd (h ▸ hn) hname
      · exact ih s hend hinj' node h hname
    · simp only [hn, if_false] at hend ⊢
      cases hget : c.get n.metadata.name with
      | error err => simp [hget] at hend
      | ok nd =>
        simp only [hget] at hend ⊢
        by_cases hcr : env.create
            (repodir ++ "/" ++ "node-" ++ ReplaceAll nd.metadata.name ":" "-" ++ ".yaml") = false
        · simp [hcr] at hend
        · simp only [hcr, if_false] at hend ⊢
          cases henc : env.encode (addTypeInformationToObject
              (env.objectKinds (makeGeneric nd)) (makeGeneric nd)).1 with
          | error err => simp [henc] at hend
          | ok bytes =>
            simp only [henc] at hend ⊢
            rcases List.mem_cons.mp hnode with h | h
            · subst h
              refine ⟨nd, bytes, hget, henc, ?_⟩
              refine exportNodes_file_kept env c repodir rest _ hend _ _ ?_ ?_
              · rw [← node_path_eq]
                exact writeFile_mem_self _ _ _
              · intro m hm hmn nd2 hget2 hpath
                have := hinj node (List.mem_cons_self _ _) hn m (List.mem_cons_of_mem _ hm)
                  hmn nd nd2 hget hget2 (node_path_injective _ _ _ hpath).symm
                rw [← this]; exact henc
            · exact ih _ hend hinj' node h hname

/-- One direction of the comparison of two exports: a file of the first export, under the
first directory, is a file of the second export, under the second directory, with the same
name and content. -/
theorem export_file_transfers (env1 env2 : ExportEnv) (c1 c2 : Cluster) (d1 d2 : String)
    (init1 init2 : Files)
    (hnew1 : env1.newForConfig = .ok c1) (hnew2 : env2.newForConfig = .ok c2)
    (hitems : ∀ n, n ∈ c1.items → n ∈ c2.items)
    (hget : c1.get = c2.get) (hkinds : env1.objectKinds = env2.objectKinds)
    (hencode : env1.encode = env2.encode)
    (hinj : ∀ n ∈ c2.items, n.metadata.name.length ≠ 0 → ∀ m ∈ c2.items,
      m.metadata.name.length ≠ 0 → ∀ a b,
      c2.get n.metadata.name = .ok a → c2.get m.metadata.name = .ok b →
      colonsToHyphens a.metadata.name = colonsToHyphens b.metadata.name → a = b)
    (hempty1 : ∀ f ∈ init1, ∀ n, f.1 ≠ d1 ++ "/" ++ n)
    (hret1 : (exportClusterScopedYaml env1 d1 { files := init1, encoded := [] }).1
      = .returned true none)
    (hret2 : (exportClusterScopedYaml env2 d2 { files := init2, encoded := [] }).1
      = .returned true none)
    (n b : String)
    (h : (d1 ++ "/" ++ n, b)
      ∈ (exportClusterScopedYaml env1 d1 { files := init1, encoded := [] }).2.files) :
    (d2 ++ "/" ++ n, b)
      ∈ (exportClusterScopedYaml env2 d2 { files := init2, encoded := [] }).2.files := by
  obtain ⟨hf1, hr1⟩ := exportClusterScopedYaml_ok env1 c1 d1 { files := init1, encoded := [] } hnew1
  obtain ⟨hf2, hr2⟩ := exportClusterScopedYaml_ok env2 c2 d2 { files := init2, encoded := [] } hnew2
  rw [hf1] at h
  rw [hf2]
  rcases exportNodes_file_origin env1 c1 d1 c1.items _ (hr1.mp hret1) _ _ h with
    hin | ⟨node, hnode, hname, nd, hnd, hpath, hbytes⟩
  · exact absurd rfl (hempty1 _ hin n)
  · obtain ⟨nd2, b2, hnd2, hbytes2, hmem⟩ :=
      exportNodes_file_present env2 c2 d2 c2.items _ (hr2.mp hret2) hinj node
        (hitems node hnode) hname
    have hsame : nd2 = nd := by
      rw [hget] at hnd
      rw [hnd] at hnd2
      exact (Except.ok.inj hnd2).symm
    subst hsame
    have hn : n = nodeFileName nd2.metadata.name := string_append_left_cancel _ _ _ hpath
    have hb : b2 = b := by
      have h1 : env1.encode (serialised env1 nd2) = .ok b := hbytes
      have h2 : env2.encode (serialised env2 nd2) = .ok b2 := hbytes2
      simp only [serialised, hkinds, hencode] at h1
      simp only [serialised] at h2
      rw [h1] at h2
      exact (Except.ok.inj h2).symm
    rw [hn, ← hb]
    exact hmem

/-- Claim C4 as stated fails: the same two node objects, enumerated once as `a:b`, `a-b`
and once as `a-b`, `a:b`, fetched with the same results, are exported into two empty
directories; both exports return normally and leave the one file `node-a-b.yaml`, but with
the content of `a-b` in the first directory and the content of `a:b` in the second. -/
theorem C4_enumeration_order_changes_contents :
    (sampleCluster ["a-b", "a:b"]).items = (sampleCluster ["a:b", "a-b"]).items.reverse ∧
    (sampleCluster ["a-b", "a:b"]).get "a:b" = (sampleCluster ["a:b", "a-b"]).get "a:b" ∧
    (sampleCluster ["a-b", "a:b"]).get "a-b" = (sampleCluster ["a:b", "a-b"]).get "a-b" ∧
    (exportClusterScopedYaml (sampleEnv ["a:b", "a-b"] nodeKinds) "first"
        { files := [], encoded := [] }).1 = .returned true none ∧
    (exportClusterScopedYaml (sampleEnv ["a:b", "a-b"] nodeKinds) "first"
        { files := [], encoded := [] }).2.files = [("first/node-a-b.yaml", "v1/Node a-b")] ∧
    (exportClusterScopedYaml (sampleEnv ["a-b", "a:b"] nodeKinds) "second"
        { files := [], encoded := [] }).1 = .returned true none ∧
    (exportClusterScopedYaml (sampleEnv ["a-b", "a:b"] nodeKinds) "second"
        { files := [], encoded := [] }).2.files = [("second/node-a-b.yaml", "v1/Node a:b")] := by
  refine ⟨by decide, rfl, rfl, by decide, by decide, by decide, by decide⟩

/-- Claim C4, amended.  Two exports of the same unchanged cluster into two empty
directories: the clients see the same set of node objects, possibly enumerated in another
order, the same fetch results, and the same registry and serializer; no two different
fetched nodes have names that coincide once colons are turned into hyphens; nothing lies
below either directory beforehand; and both exports return normally.  Then the two
directories hold the same files: a file name with a content is in the first exactly when
the same name with the same content is in the second, and each file name has one
content. -/
theorem C4_export_independent_of_order_and_directory (env1 env2 : ExportEnv)
    (c1 c2 : Cluster) (d1 d2 : String) (init1 init2 : Files)
    (hnew1 : env1.newForConfig = .ok c1) (hnew2 : env2.newForConfig = .ok c2)
    (hitems : ∀ n, n ∈ c1.items ↔ n ∈ c2.items)
    (hget : c1.get = c2.get) (hkinds : env1.objectKinds = env2.objectKinds)
    (hencode : env1.encode = env2.encode)
    (hinj : ∀ n ∈ c1.items, n.metadata.name.length ≠ 0 → ∀ m ∈ c1.items,
      m.metadata.name.length ≠ 0 → ∀ a b,
      c1.get n.metadata.name = .ok a → c1.get m.metadata.name = .ok b →
      colonsToHyphens a.metadata.name = colonsToHyphens b.metadata.name → a = b)
    (hempty1 : ∀ f ∈ init1, ∀ n, f.1 ≠ d1 ++ "/" ++ n)
    (hempty2 : ∀ f ∈ init2, ∀ n, f.1 ≠ d2 ++ "/" ++ n)
    (hret1 : (exportClusterScopedYaml env1 d1 { files := init1, encoded := [] }).1
      = .returned true none)
    (hret2 : (exportClusterScopedYaml env2 d2 { files := init2, encoded := [] }).1
      = .returned true none) :
    (∀ n b,
      (d1 ++ "/" ++ n, b)
        ∈ (exportClusterScopedYaml env1 d1 { files := init1, encoded := [] }).2.files ↔
      (d2 ++ "/" ++ n, b)
        ∈ (exportClusterScopedYaml env2 d2 { files := init2, encoded := [] }).2.files) ∧
    (∀ n b b',
      (d1 ++ "/" ++ n, b)
        ∈ (exportClusterScopedYaml env1 d1 { files := init1, encoded := [] }).2.files →
      (d1 ++ "/" ++ n, b')
        ∈ (exportClusterScopedYaml env1 d1 { files := init1, encoded := [] }).2.files →
      b = b') := by
  have hinj2 : ∀ n ∈ c2.items, n.metadata.name.length ≠ 0 → ∀ m ∈ c2.items,
      m.metadata.name.length ≠ 0 → ∀ a b,
      c2.get n.metadata.name = .ok a → c2.get m.metadata.name = .ok b →
      colonsToHyphens a.metadata.name = colonsToHyphens b.metadata.name → a = b := by
    intro n hn hnn m hm hmn a b ha hb
    rw [← hget] at ha hb
    exact hinj n ((hitems n).mpr hn) hnn m ((hitems m).mpr hm) hmn a b ha hb
  refine ⟨fun n b => ⟨?_, ?_⟩, ?_⟩
  · exact export_file_transfers env1 env2 c1 c2 d1 d2 init1 init2 hnew1 hnew2
      (fun n h => (hitems n).mp h) hget hkinds hencode hinj2 hempty1 hret1 hret2 n b
  · exact export_file_transfers env2 env1 c2 c1 d2 d1 init2 init1 hnew2 hnew1
      (fun n h => (hitems n).mpr h) hget.symm hkinds.symm hencode.symm hinj hempty2 hret2 hret1
      n b
  · intro n b b' h h'
    obtain ⟨hf1, hr1⟩ :=
      exportClusterScopedYaml_ok env1 c1 d1 { files := init1, encoded := [] } hnew1
    rw [hf1] at h h'
    rcases exportNodes_file_origin env1 c1 d1 c1.items _ (hr1.mp hret1) _ _ h with
      hin | ⟨x, hx, hxn, a, ha, hpa, hba⟩
    · exact absurd rfl (hempty1 _ hin n)
    · rcases exportNodes_file_origin env1 c1 d1 c1.items _ (hr1.mp hret1) _ _ h' with
        hin | ⟨y, hy, hyn, a', ha', hpa', hba'⟩
      · exact absurd rfl (hempty1 _ hin n)
      · have hsame : a = a' :=
          hinj x hx hxn y hy hyn a a' ha ha'
            (node_path_injective d1 _ _ (by rw [← hpa, ← hpa']))
        subst hsame
        rw [hba] at hba'
        exact Except.ok.inj hba'

/-- Claim C4, amended, at a two-node cluster enumerated as `node:1`, `b` for the export
into `first` and as `b`, `node:1` for the export into `second`: the file of `b` is in both
directories with the same content. -/
theorem C4_export_independent_of_order_and_directory_witness :
    ("first/node-b.yaml", "v1/Node b")
      ∈ (exportClusterScopedYaml (sampleEnv ["node:1", "b"] nodeKinds) "first"
          { files := [], encoded := [] }).2.files ∧
    ("second" ++ "/" ++ "node-b.yaml", "v1/Node b")
      ∈ (exportClusterScopedYaml sampleEnvReversed "second"
          { files := [], encoded := [] }).2.files := by
  have e1 : (sampleCluster ["node:1", "b"]).get (sampleNode "node:1").metadata.name
      = .ok (sampleNode "node:1") := rfl
  have e2 : (sampleCluster ["node:1", "b"]).get (sampleNode "b").metadata.name
      = .ok (sampleNode "b") := rfl
  have h := C4_export_independent_of_order_and_directory
    (sampleEnv ["node:1", "b"] nodeKinds) sampleEnvReversed
    (sampleCluster ["node:1", "b"]) sampleClusterReversed "first" "second" [] []
    rfl rfl
    (by
      intro n
      simp only [sampleCluster, sampleClusterReversed, List.map_cons, List.map_nil,
        List.mem_cons, List.mem_singleton, List.not_mem_nil, or_false]
      exact Or.comm)
    rfl rfl rfl
    (by
      intro n hn _ m hm _ a b ha hb hs
      simp only [sampleCluster, List.map_cons, List.map_nil, List.mem_cons,
        List.mem_singleton, List.not_mem_nil, or_false] at hn hm
      rcases hn with rfl | rfl <;> rcases hm with rfl | rfl
      · rw [e1] at ha hb
        exact (Except.ok.inj ha).symm.trans (Except.ok.inj hb)
      · rw [e1] at ha; rw [e2] at hb
        rw [← Except.ok.inj ha, ← Except.ok.inj hb] at hs
        exact absurd hs (by decide)
      · rw [e2] at ha; rw [e1] at hb
        rw [← Except.ok.inj ha, ← Except.ok.inj hb] at hs
        exact absurd hs (by decide)
      · rw [e2] at ha hb
        exact (Except.ok.inj ha).symm.trans (Except.ok.inj hb))
    (fun f hf => by cases hf) (fun f hf => by cases hf)
    (by decide) (by decide)
  exact ⟨by decide, (h.1 "node-b.yaml" "v1/Node b").mp (by decide)⟩

end Gokp
